import Mathlib

/-!
# Goroutines dashboard collector (`Goroutines/main.go`)

A shallow embedding of the program: the pure parts (`initDB`, `fetchDataFromAPI`,
the `GET /data` handler) are Lean functions of the outcomes the outside world
hands them, and the concurrent collection pass of `main` is a small-step
machine.  Every goroutine is a thread with a program counter; one step of the
machine is one step of one thread, picked by a schedule.  An operation that
blocks (`mu.Lock`, `wg.Wait`, a send on a full channel, a receive on an empty
one) or panics (a negative `WaitGroup` counter, a send on a closed channel)
has no successor state.
-/

namespace Goroutines

/-! ## Data model -/

/-- The compiled-in source list (`main.go` lines 16-20). -/
def dataSources : List String :=
  ["https://jsonplaceholder.typicode.com/posts/1",
   "https://jsonplaceholder.typicode.com/posts/2",
   "https://jsonplaceholder.typicode.com/posts/3"]

/-- The persisted row type (`main.go` lines 24-28).  `Timestamp` is an abstract
instant. -/
structure DataSummary where
  ID : Nat
  Source : String
  Timestamp : Nat
deriving DecidableEq, Repr

/-- One field of a Go struct declaration: its name and its tag, as key/value
pairs. -/
structure GoField where
  name : String
  tags : List (String × String)
deriving DecidableEq, Repr

/-- The field declarations of `DataSummary`, tags included (lines 25-27). -/
def DataSummary.fields : List GoField :=
  [⟨"ID", [("gorm", "primaryKey")]⟩,
   ⟨"Source", [("gorm", "type:text")]⟩,
   ⟨"Timestamp", [("gorm", "autoCreateTime")]⟩]

/-- JSON values, as far as the handler produces them. -/
inductive Json where
  | num (n : Nat)
  | str (s : String)
  | arr (items : List Json)
  | obj (members : List (String × Json))

/-- The key `encoding/json` gives a struct field: the name in its `json` tag
when it has one, the Go field name otherwise. -/
def jsonKey (f : GoField) : String :=
  (f.tags.lookup "json").getD f.name

/-- Marshalling of one `DataSummary` by `encoding/json`: one member per field,
in declaration order; `time.Time` becomes a string through `fmtTime`. -/
def DataSummary.marshal (fmtTime : Nat → String) (r : DataSummary) : Json :=
  .obj ((DataSummary.fields.map jsonKey).zip
    [.num r.ID, .str r.Source, .str (fmtTime r.Timestamp)])

/-- The member names of a JSON object (empty for any other value). -/
def Json.keys : Json → List String
  | .obj members => members.map Prod.fst
  | _ => []

/-- The items of a JSON array (empty for any other value). -/
def Json.items : Json → List Json
  | .arr xs => xs
  | _ => []

/-- Member lookup in a JSON object. -/
def Json.member (k : String) : Json → Option Json
  | .obj members => members.lookup k
  | _ => none

/-- Whether a JSON value is an array. -/
def Json.isArr : Json → Bool
  | .arr _ => true
  | _ => false

/-- An HTTP response of the query service: status code and JSON body. -/
structure Response where
  status : Nat
  body : Json

/-! ## Sequential functions -/

/-- `initDB` (lines 30-40).  `opened` is the outcome of `gorm.Open`,
`autoMigrate` the outcome of `db.AutoMigrate` on the opened handle.  The result
is the Go pair `(db, err)`, with `none` for `nil`. -/
def initDB {H : Type} (opened : Except String H) (autoMigrate : H → Option String) :
    Option H × Option String :=
  match opened with
  | .error err => (none, some err)
  | .ok db =>
    match autoMigrate db with
    | some err => (none, some err)
    | none => (some db, none)

/-- What `http.Get` hands back when it does not fail: a status code (which the
program never reads) and a body, given by what `json.NewDecoder(...).Decode`
makes of it: a decode error, or the decoded value. -/
structure HttpResponse (D : Type) where
  StatusCode : Nat
  Body : Except String D

/-- `fetchDataFromAPI` (lines 42-55).  `get` is the outcome of `http.Get(url)`,
`fmtV` the rendering of `%v`.  The result is the Go pair `(text, err)`. -/
def fetchDataFromAPI {D : Type} (fmtV : D → String)
    (get : Except String (HttpResponse D)) : String × Option String :=
  match get with
  | .error err => ("", some err)
  | .ok response =>
    match response.Body with
    | .error err => ("", some err)
    | .ok data => ("Data from API: " ++ fmtV data, none)

/-- The handler of `GET /data` (lines 79-86).  `find` is the outcome of
`db.Find(&dataSummaries)`. -/
def getData (fmtTime : Nat → String) (find : Except String (List DataSummary)) : Response :=
  match find with
  | .error err => ⟨500, .obj [("error", .str err)]⟩
  | .ok dataSummaries => ⟨200, .arr (dataSummaries.map (DataSummary.marshal fmtTime))⟩

/-! ## The concurrent collection pass -/

/-- What the outside world does to one collection unit: the source it is given,
the outcome of its `http.Get` and body decode, and the outcome of its
`db.Create` (an error, or the instant the Store stamps on the row). -/
structure Job (D : Type) where
  source : String
  get : Except String (HttpResponse D)
  create : Except String Nat

/-- Everything the program does not decide itself. -/
structure World (D : Type) where
  gormOpen : Except String Unit
  autoMigrate : Option String
  disk : List DataSummary
  jobs : List (Job D)
  fmtV : D → String
  assignID : List DataSummary → Nat

/-- Program counter of a `collectData` goroutine (lines 57-74). -/
inductive UnitPc where
  | fetchCall
  | fetching
  | lockMu
  | createCall
  | creating
  | unlockMu
  | send
  | wgDone
  | exited
deriving DecidableEq, Repr

/-- Program counter of `main` (lines 91-115). -/
inductive MainPc where
  | init
  | loopAdd (k : Nat)
  | loopGo (k : Nat)
  | goCloser
  | recv
  | serve
  | fatal
deriving DecidableEq, Repr

/-- Program counter of the anonymous goroutine of lines 105-108. -/
inductive CloserPc where
  | idle
  | wait
  | close
  | exited
deriving DecidableEq, Repr

/-- One `collectData` goroutine: its argument, its program counter, its local
`data`, and three history counters (calls made to `fetchDataFromAPI`, to
`db.Create` and to `wg.Done`). -/
structure CUnit (D : Type) where
  job : Job D
  pc : UnitPc
  data : String
  fetches : Nat
  creates : Nat
  dones : Nat

/-- The machine state.  `mu` is the mutex (`some i`: locked, by unit `i`),
`wg` the `WaitGroup` counter, `results` the buffer of the channel, `db` the
rows of the Store, `log` the lines written through package `log`, `stdout` the
lines printed by the receive loop. -/
structure State (D : Type) where
  mainPc : MainPc
  closerPc : CloserPc
  units : List (CUnit D)
  mu : Option Nat
  wg : Nat
  results : List String
  closed : Bool
  db : List DataSummary
  log : List String
  stdout : List String

/-- The state at process start: nothing is running but `main`, the Store holds
what is on disk. -/
def State.start {D : Type} (w : World D) : State D :=
  { mainPc := .init, closerPc := .idle, units := [], mu := none, wg := 0,
    results := [], closed := false, db := w.disk, log := [], stdout := [] }

/-- A goroutine freshly started by `go collectData(source, ...)`. -/
def CUnit.spawn {D : Type} (j : Job D) : CUnit D :=
  { job := j, pc := .fetchCall, data := "", fetches := 0, creates := 0, dones := 0 }

/-- The line of `log.Printf` at line 62. -/
def fetchErrLine (source err : String) : String :=
  "Error fetching data from " ++ source ++ ": " ++ err

/-- The line of `log.Printf` at line 69. -/
def insertErrLine (err : String) : String :=
  "Error inserting data: " ++ err

/-- The line of `log.Fatalf` at line 94. -/
def fatalLine (err : String) : String :=
  "Error initializing database: " ++ err

/-- One step of the `i`-th `collectData` goroutine (lines 57-74). -/
def collectData {D : Type} (w : World D) (s : State D) (i : Nat) : Option (State D) :=
  match s.units[i]? with
  | none => none
  | some u =>
    match u.pc with
    | .fetchCall =>
      some { s with units := s.units.set i { u with pc := .fetching, fetches := u.fetches + 1 } }
    | .fetching =>
      match fetchDataFromAPI w.fmtV u.job.get with
      | (_, some err) =>
        some { s with
          units := s.units.set i { u with pc := .wgDone }
          log := s.log ++ [fetchErrLine u.job.source err] }
      | (data, none) =>
        some { s with units := s.units.set i { u with pc := .lockMu, data := data } }
    | .lockMu =>
      match s.mu with
      | some _ => none
      | none => some { s with mu := some i, units := s.units.set i { u with pc := .createCall } }
    | .createCall =>
      some { s with units := s.units.set i { u with pc := .creating, creates := u.creates + 1 } }
    | .creating =>
      match u.job.create with
      | .error err =>
        some { s with
          units := s.units.set i { u with pc := .unlockMu }
          log := s.log ++ [insertErrLine err] }
      | .ok now =>
        some { s with
          units := s.units.set i { u with pc := .unlockMu }
          db := s.db ++ [⟨w.assignID s.db, u.data, now⟩] }
    | .unlockMu =>
      match s.mu with
      | none => none
      | some _ => some { s with mu := none, units := s.units.set i { u with pc := .send } }
    | .send =>
      if s.closed then none
      else if s.results.length < w.jobs.length then
        some { s with
          results := s.results ++ [u.data]
          units := s.units.set i { u with pc := .wgDone } }
      else none
    | .wgDone =>
      if 0 < s.wg then
        some { s with
          wg := s.wg - 1
          units := s.units.set i { u with pc := .exited, dones := u.dones + 1 } }
      else none
    | .exited => none

/-- One step of the goroutine of lines 105-108: `wg.Wait()`, then
`close(results)`. -/
def closer {D : Type} (s : State D) : Option (State D) :=
  match s.closerPc with
  | .idle => none
  | .wait => if s.wg = 0 then some { s with closerPc := .close } else none
  | .close => if s.closed then none else some { s with closed := true, closerPc := .exited }
  | .exited => none

/-- One step of `main` (lines 91-115).  At `serve` it has called `startServer`
and takes no further step of the collection pass; at `fatal` the process has
exited. -/
def main {D : Type} (w : World D) (s : State D) : Option (State D) :=
  match s.mainPc with
  | .init =>
    match initDB w.gormOpen (fun _ => w.autoMigrate) with
    | (_, some err) => some { s with mainPc := .fatal, log := s.log ++ [fatalLine err] }
    | (_, none) => some { s with mainPc := .loopAdd 0 }
  | .loopAdd k =>
    match w.jobs[k]? with
    | none => some { s with mainPc := .goCloser }
    | some _ => some { s with wg := s.wg + 1, mainPc := .loopGo k }
  | .loopGo k =>
    match w.jobs[k]? with
    | none => none
    | some j => some { s with units := s.units ++ [CUnit.spawn j], mainPc := .loopAdd (k + 1) }
  | .goCloser => some { s with closerPc := .wait, mainPc := .recv }
  | .recv =>
    match s.results with
    | result :: rest => some { s with results := rest, stdout := s.stdout ++ [result] }
    | [] => if s.closed then some { s with mainPc := .serve } else none
  | .serve => none
  | .fatal => none

/-- Which thread moves. -/
inductive Thread where
  | main
  | closer
  | unit (i : Nat)
deriving DecidableEq, Repr

/-- One step of the machine: the chosen thread moves, if it can. -/
def step {D : Type} (w : World D) (s : State D) : Thread → Option (State D)
  | .main => main w s
  | .closer => closer s
  | .unit i => collectData w s i

/-- Running a schedule: `none` as soon as a chosen thread cannot move. -/
def run {D : Type} (w : World D) (s : State D) : List Thread → Option (State D)
  | [] => some s
  | t :: ts => (step w s t).bind fun s' => run w s' ts

/-- What `GET /data` answers in state `s` when the Store read succeeds. -/
def served {D : Type} (fmtTime : Nat → String) (s : State D) : Response :=
  getData fmtTime (.ok s.db)

/-! ## What a job leaves behind, and the invariant of the machine -/

/-- The payload a job's fetch returns, when it returns without error. -/
def Job.fetched {D : Type} (fmtV : D → String) (j : Job D) : Option String :=
  match fetchDataFromAPI fmtV j.get with
  | (data, none) => some data
  | (_, some _) => none

/-- The payload a job gets into the Store: its fetch and its insert both
succeed. -/
def Job.stored {D : Type} (fmtV : D → String) (j : Job D) : Option String :=
  match j.create with
  | .ok _ => j.fetched fmtV
  | .error _ => none

/-- The line a job gets into the log: its fetch fails, or its fetch succeeds and
its insert fails. -/
def Job.logged {D : Type} (fmtV : D → String) (j : Job D) : Option String :=
  match fetchDataFromAPI fmtV j.get with
  | (_, some err) => some (fetchErrLine j.source err)
  | (_, none) =>
    match j.create with
    | .error err => some (insertErrLine err)
    | .ok _ => none

/-- The unit has not called `wg.Done` yet. -/
def UnitPc.live : UnitPc → Bool
  | .exited => false
  | _ => true

/-- The unit is between `mu.Lock()` and `mu.Unlock()`. -/
def UnitPc.inCrit : UnitPc → Bool
  | .createCall | .creating | .unlockMu => true
  | _ => false

/-- The unit's `db.Create`, if it made one, has returned. -/
def UnitPc.pastCreate : UnitPc → Bool
  | .unlockMu | .send | .wgDone | .exited => true
  | _ => false

/-- The unit's send, if it made one, is done. -/
def UnitPc.pastSend : UnitPc → Bool
  | .wgDone | .exited => true
  | _ => false

/-- Steps the unit has left, at most. -/
def UnitPc.rank : UnitPc → Nat
  | .fetchCall => 8
  | .fetching => 7
  | .lockMu => 6
  | .createCall => 5
  | .creating => 4
  | .unlockMu => 3
  | .send => 2
  | .wgDone => 1
  | .exited => 0

/-- What the unit has sent on `results` so far. -/
def CUnit.sentOpt {D : Type} (fmtV : D → String) (u : CUnit D) : Option String :=
  if u.pc.pastSend then u.job.fetched fmtV else none

/-- What the unit has put in the Store so far. -/
def CUnit.storedOpt {D : Type} (fmtV : D → String) (u : CUnit D) : Option String :=
  if u.pc.pastCreate then u.job.stored fmtV else none

/-- What the unit has logged so far. -/
def CUnit.loggedOpt {D : Type} (fmtV : D → String) (u : CUnit D) : Option String :=
  if u.pc.pastCreate then u.job.logged fmtV else none

/-- Consistency of one unit: its counters and its local `data` are what its
program counter says. -/
def CUnit.OK {D : Type} (fmtV : D → String) (u : CUnit D) : Prop :=
  match u.pc with
  | .fetchCall => u.fetches = 0 ∧ u.creates = 0 ∧ u.dones = 0
  | .fetching => u.fetches = 1 ∧ u.creates = 0 ∧ u.dones = 0
  | .lockMu | .createCall =>
    u.fetches = 1 ∧ u.creates = 0 ∧ u.dones = 0 ∧
      fetchDataFromAPI fmtV u.job.get = (u.data, none)
  | .creating | .unlockMu | .send =>
    u.fetches = 1 ∧ u.creates = 1 ∧ u.dones = 0 ∧
      fetchDataFromAPI fmtV u.job.get = (u.data, none)
  | .wgDone =>
    u.fetches = 1 ∧ u.dones = 0 ∧
      u.creates = (if (u.job.fetched fmtV).isSome then 1 else 0)
  | .exited =>
    u.fetches = 1 ∧ u.dones = 1 ∧
      u.creates = (if (u.job.fetched fmtV).isSome then 1 else 0)

/-- The error `initDB` returns in world `w`. -/
def World.initErr {D : Type} (w : World D) : Option String :=
  (initDB w.gormOpen (fun _ => w.autoMigrate)).2

/-- Consistency of `main` with the rest of the state. -/
def MainOK {D : Type} (w : World D) (s : State D) : Prop :=
  match s.mainPc with
  | .init => s.units.length = 0 ∧ s.closerPc = .idle
  | .loopAdd k =>
    s.units.length = k ∧ k ≤ w.jobs.length ∧ s.closerPc = .idle ∧ w.initErr = none
  | .loopGo k =>
    s.units.length = k ∧ k < w.jobs.length ∧ s.closerPc = .idle ∧ w.initErr = none
  | .goCloser => s.units.length = w.jobs.length ∧ s.closerPc = .idle ∧ w.initErr = none
  | .recv => s.units.length = w.jobs.length ∧ s.closerPc ≠ .idle ∧ w.initErr = none
  | .serve =>
    s.units.length = w.jobs.length ∧ s.closerPc = .exited ∧ s.results = [] ∧
      w.initErr = none
  | .fatal =>
    s.units.length = 0 ∧ s.closerPc = .idle ∧
      ∃ err, w.initErr = some err ∧ s.log = [fatalLine err]

/-- The invariant of the machine. -/
structure Inv {D : Type} (w : World D) (s : State D) : Prop where
  units_ok : ∀ u ∈ s.units, u.OK w.fmtV
  jobs_eq : s.units.map (fun u => u.job) = w.jobs.take s.units.length
  main_ok : MainOK w s
  wg_eq : s.wg = s.units.countP (fun u => u.pc.live) +
    (match s.mainPc with | .loopGo _ => 1 | _ => 0)
  mu_ok : ∀ i u, s.units[i]? = some u → u.pc.inCrit = true → s.mu = some i
  mu_held : ∀ i, s.mu = some i → ∃ u, s.units[i]? = some u ∧ u.pc.inCrit = true
  closed_iff : s.closed = true ↔ s.closerPc = .exited
  drained : s.closerPc = .close ∨ s.closerPc = .exited → s.wg = 0
  chan : (s.stdout ++ s.results).Perm (s.units.filterMap (CUnit.sentOpt w.fmtV))
  db_ok : ∃ new, s.db = w.disk ++ new ∧
    (new.map (fun r => r.Source)).Perm (s.units.filterMap (CUnit.storedOpt w.fmtV))
  log_ok : s.mainPc ≠ .fatal → s.log.Perm (s.units.filterMap (CUnit.loggedOpt w.fmtV))

/-- A variant that decreases with every step of the machine. -/
def State.fuel {D : Type} (w : World D) (s : State D) : Nat :=
  2 * (s.units.map (fun u => u.pc.rank)).sum + s.results.length +
    (match s.closerPc with | .idle => 0 | .wait => 2 | .close => 1 | .exited => 0) +
    (match s.mainPc with
      | .init => 18 * w.jobs.length + 6
      | .loopAdd k => 18 * (w.jobs.length - k) + 5
      | .loopGo k => 18 * (w.jobs.length - k) + 4
      | .goCloser => 4
      | .recv => 1
      | .serve => 0
      | .fatal => 0)

/-- The facts that hold once `main` has reached `startServer`. -/
structure Final {D : Type} (w : World D) (s : State D) : Prop where
  jobs : s.units.map (fun u => u.job) = w.jobs
  exited : ∀ u ∈ s.units, u.pc = .exited
  once : ∀ u ∈ s.units, u.fetches = 1 ∧ u.dones = 1 ∧ u.creates ≤ 1
  printed : s.stdout.Perm (w.jobs.filterMap (Job.fetched w.fmtV))
  drained : s.results = []
  closed : s.closed = true
  unlocked : s.mu = none
  stored : ∃ new, s.db = w.disk ++ new ∧
    (new.map (fun r => r.Source)).Perm (w.jobs.filterMap (Job.stored w.fmtV))
  logged : s.log.Perm (w.jobs.filterMap (Job.logged w.fmtV))

/-- The three fields a row of the answer carries, read back from a JSON item. -/
def Json.toRow (j : Json) : Option (Nat × String × String) :=
  match j.member "ID", j.member "Source", j.member "Timestamp" with
  | some (.num n), some (.str src), some (.str ts) => some (n, src, ts)
  | _, _, _ => none

/-! ## Concrete worlds and schedules -/

/-- A job whose fetch and insert both succeed. -/
def okJob (source : String) : Job String :=
  ⟨source, .ok ⟨200, .ok "map[id:1]"⟩, .ok 7⟩

/-- A job whose fetch fails on the network. -/
def netFailJob (source : String) : Job String :=
  ⟨source, .error "connection refused", .ok 7⟩

/-- A job whose fetch succeeds and whose insert fails. -/
def insertFailJob (source : String) : Job String :=
  ⟨source, .ok ⟨200, .ok "map[id:3]"⟩, .error "disk full"⟩

/-- A world with a working Store that numbers rows one past the largest id. -/
def demoWorld (disk : List DataSummary) (jobs : List (Job String)) : World String :=
  { gormOpen := .ok (), autoMigrate := none, disk := disk, jobs := jobs, fmtV := id,
    assignID := fun rows => (rows.map (fun r => r.ID)).foldr max 0 + 1 }

/-- The steps one unit takes from start to exit when its fetch succeeds. -/
def unitSteps (i : Nat) : List Thread := List.replicate 8 (.unit i)

/-- A world with one source: the fetch succeeds, the insert fails. -/
def insertFailWorld : World String := demoWorld [] [insertFailJob "https://a.example/1"]

/-- A complete schedule for `insertFailWorld`. -/
def insertFailSched : List Thread :=
  List.replicate 5 .main ++ unitSteps 0 ++ [.closer, .closer, .main, .main]

/-- The three compiled-in sources: one succeeds, one fails to fetch, one fails
to insert. -/
def mixedWorld : World String :=
  demoWorld []
    [okJob "https://jsonplaceholder.typicode.com/posts/1",
     netFailJob "https://jsonplaceholder.typicode.com/posts/2",
     insertFailJob "https://jsonplaceholder.typicode.com/posts/3"]

/-- A complete schedule for `mixedWorld`, the units interleaved. -/
def mixedSched : List Thread :=
  List.replicate 9 .main ++
    [.unit 2, .unit 0, .unit 1, .unit 2, .unit 0, .unit 1, .unit 2, .unit 2, .unit 2, .unit 1,
     .unit 2, .unit 0, .unit 2, .unit 0, .unit 0, .unit 2, .unit 0, .unit 0, .unit 0,
     .closer, .closer, .main, .main, .main]

/-- The three compiled-in sources, all succeeding, over a Store that already
holds `disk`. -/
def allOkWorld (disk : List DataSummary) : World String :=
  demoWorld disk (dataSources.map okJob)

/-- A complete schedule for `allOkWorld`. -/
def allOkSched : List Thread :=
  List.replicate 9 .main ++ unitSteps 1 ++ unitSteps 0 ++ unitSteps 2 ++
    [.closer, .closer, .main, .main, .main, .main]

/-- A complete schedule for `mixedWorld` without its second source. -/
def mixedLessSched : List Thread :=
  List.replicate 7 .main ++ unitSteps 0 ++ unitSteps 1 ++ [.closer, .closer, .main, .main, .main]

/-- A schedule of `mixedWorld` that stops while unit 2 is inside db.Create. -/
def midInsertSched : List Thread :=
  List.replicate 9 .main ++
    [.unit 2, .unit 0, .unit 1, .unit 2, .unit 0, .unit 1, .unit 2, .unit 2]

/-- A world whose Store cannot be opened. -/
def noStoreWorld : World String :=
  { demoWorld [] (dataSources.map okJob) with gormOpen := .error "unable to open database file" }

/-! ## Lemmas on lists -/

theorem countP_set_add {α : Type} (p : α → Bool) :
    ∀ (l : List α) (i : Nat) (u u' : α), l[i]? = some u →
      (l.set i u').countP p + (if p u then 1 else 0) = l.countP p + (if p u' then 1 else 0)
  | [], i, u, u', h => by simp at h
  | a :: t, 0, u, u', h => by
    simp at h
    subst h
    simp [List.countP_cons]
    omega
  | a :: t, i + 1, u, u', h => by
    simp at h
    have ih := countP_set_add p t i u u' h
    simp [List.countP_cons]
    omega

theorem sum_map_set_add {α : Type} (f : α → Nat) :
    ∀ (l : List α) (i : Nat) (u u' : α), l[i]? = some u →
      ((l.set i u').map f).sum + f u = (l.map f).sum + f u'
  | [], i, u, u', h => by simp at h
  | a :: t, 0, u, u', h => by
    simp at h
    subst h
    simp
    omega
  | a :: t, i + 1, u, u', h => by
    simp at h
    have ih := sum_map_set_add f t i u u' h
    simp only [List.set_cons_succ, List.map_cons, List.sum_cons]
    omega

theorem perm_filterMap_set {α β : Type} (f : α → Option β) :
    ∀ (l : List α) (i : Nat) (u u' : α), l[i]? = some u →
      List.Perm ((l.set i u').filterMap f ++ (f u).toList) (l.filterMap f ++ (f u').toList)
  | [], i, u, u', h => by simp at h
  | a :: t, 0, u, u', h => by
    simp at h
    subst h
    simp only [List.set_cons_zero, List.filterMap_cons]
    cases h1 : f a <;> cases h2 : f u' <;> simp only [Option.toList, List.append_nil]
    · exact List.Perm.refl _
    · exact (List.perm_append_singleton _ _).symm
    · exact List.perm_append_singleton _ _
    · rename_i x y
      have e1 : List.Perm (y :: List.filterMap f t ++ [x]) (x :: y :: List.filterMap f t) :=
        List.perm_append_singleton _ _
      have e2 : List.Perm (x :: List.filterMap f t ++ [y]) (y :: x :: List.filterMap f t) :=
        List.perm_append_singleton _ _
      exact e1.trans ((List.Perm.swap y x _).trans e2.symm)
  | a :: t, i + 1, u, u', h => by
    simp at h
    have ih := perm_filterMap_set f t i u u' h
    simp only [List.set_cons_succ, List.filterMap_cons]
    cases h1 : f a
    · exact ih
    · exact List.Perm.cons _ ih

theorem map_set_same {α β : Type} (f : α → β) :
    ∀ (l : List α) (i : Nat) (u u' : α), l[i]? = some u → f u' = f u →
      (l.set i u').map f = l.map f
  | [], i, u, u', h, _ => by simp at h
  | a :: t, 0, u, u', h, hf => by
    simp at h
    subst h
    simp [hf]
  | a :: t, i + 1, u, u', h, hf => by
    simp at h
    simp only [List.set_cons_succ, List.map_cons, map_set_same f t i u u' h hf]

/-! ## The invariant is preserved -/

theorem perm_set_extra {α β : Type} (f : α → Option β) (l : List α) (i : Nat) (u u' : α)
    (base extra : List β) (h : l[i]? = some u)
    (hx : (f u').toList = (f u).toList ++ extra) (hb : base.Perm (l.filterMap f)) :
    (base ++ extra).Perm ((l.set i u').filterMap f) := by
  have h1 := perm_filterMap_set f l i u u' h
  rw [hx] at h1
  have h2 : ((l.set i u').filterMap f ++ (f u).toList).Perm
      ((l.filterMap f ++ extra) ++ (f u).toList) := by
    refine h1.trans ?_
    rw [List.append_assoc]
    exact List.Perm.append_left _ List.perm_append_comm
  have h3 := (List.perm_append_right_iff _).mp h2
  exact (List.Perm.append_right _ hb).trans h3.symm

theorem Inv.update_unit {D : Type} {w : World D} {s : State D} (h : Inv w s)
    {i : Nat} {u : CUnit D} (hu : s.units[i]? = some u) (u' : CUnit D)
    (m' : Option Nat) (g' : Nat) (r' : List String) (d' : List DataSummary) (l' : List String)
    (hjob : u'.job = u.job) (hok : u'.OK w.fmtV)
    (hwg : g' + (if u.pc.live then 1 else 0) = s.wg + (if u'.pc.live then 1 else 0))
    (hle : g' ≤ s.wg) (hsv : s.mainPc = .serve → r' = s.results)
    (hmu : (m' = s.mu ∧ u'.pc.inCrit = u.pc.inCrit) ∨
      (s.mu = none ∧ m' = some i ∧ u'.pc.inCrit = true) ∨
      (m' = none ∧ u'.pc.inCrit = false ∧ u.pc.inCrit = true))
    (hr : ∃ extra, r' = s.results ++ extra ∧
      (u'.sentOpt w.fmtV).toList = (u.sentOpt w.fmtV).toList ++ extra)
    (hd : ∃ extra, d' = s.db ++ extra ∧
      (u'.storedOpt w.fmtV).toList =
        (u.storedOpt w.fmtV).toList ++ extra.map (fun r => r.Source))
    (hl : ∃ extra, l' = s.log ++ extra ∧
      (u'.loggedOpt w.fmtV).toList = (u.loggedOpt w.fmtV).toList ++ extra) :
    Inv w { s with units := s.units.set i u', mu := m', wg := g', results := r',
                   db := d', log := l' } := by
  have hi : i < s.units.length := (List.getElem?_eq_some_iff.mp hu).1
  refine ⟨?_, ?_, ?_, ?_, ?_, ?_, ?_, ?_, ?_, ?_, ?_⟩
  · intro x hx
    rcases List.mem_or_eq_of_mem_set hx with hx | hx
    · exact h.units_ok x hx
    · exact hx ▸ hok
  · simp only [List.length_set]
    rw [map_set_same _ _ _ _ _ hu hjob]
    exact h.jobs_eq
  · have := h.main_ok
    unfold MainOK at this ⊢
    simp only [List.length_set]
    cases hm : s.mainPc <;> simp only [hm] at this hsv ⊢ <;> try exact this
    · rw [hsv trivial]; exact this
    · omega
  · have h1 := h.wg_eq
    have h2 := countP_set_add (fun u : CUnit D => u.pc.live) s.units i u u' hu
    simp only at h1 h2 ⊢
    omega
  · intro j x hx hc
    simp only [List.getElem?_set] at hx
    by_cases hij : i = j
    · subst hij
      simp [hi] at hx
      subst hx
      rcases hmu with ⟨h1, h2⟩ | ⟨_, h1, _⟩ | ⟨_, h2, _⟩
      · rw [h1]; exact h.mu_ok i u hu (h2 ▸ hc)
      · exact h1
      · rw [h2] at hc; cases hc
    · simp [hij] at hx
      have hj := h.mu_ok j x hx hc
      rcases hmu with ⟨h1, _⟩ | ⟨h0, _, _⟩ | ⟨_, _, h3⟩
      · rw [h1]; exact hj
      · rw [h0] at hj; cases hj
      · have := h.mu_ok i u hu h3
        rw [this] at hj
        exact absurd (Option.some.inj hj) hij
  · intro j hj
    simp only at hj
    simp only [List.getElem?_set]
    rcases hmu with ⟨h1, h2⟩ | ⟨_, h1, h2⟩ | ⟨h1, _, _⟩
    · obtain ⟨x, hx, hc⟩ := h.mu_held j (h1 ▸ hj)
      by_cases hij : i = j
      · subst hij
        rw [hu] at hx
        cases hx
        exact ⟨u', by simp [hi], h2 ▸ hc⟩
      · exact ⟨x, by simp [hij, hx], hc⟩
    · rw [h1] at hj
      cases hj
      exact ⟨u', by simp [hi], h2⟩
    · rw [h1] at hj; cases hj
  · exact h.closed_iff
  · intro hc
    have := h.drained hc
    simp only
    omega
  · obtain ⟨extra, rfl, hx⟩ := hr
    have := perm_set_extra (CUnit.sentOpt w.fmtV) s.units i u u' _ extra hu hx h.chan
    simpa [List.append_assoc] using this
  · obtain ⟨extra, rfl, hx⟩ := hd
    obtain ⟨new, hn, hp⟩ := h.db_ok
    refine ⟨new ++ extra, by simp [hn], ?_⟩
    have := perm_set_extra (CUnit.storedOpt w.fmtV) s.units i u u' _ _ hu hx hp
    simpa using this
  · intro hf
    obtain ⟨extra, rfl, hx⟩ := hl
    exact perm_set_extra (CUnit.loggedOpt w.fmtV) s.units i u u' _ extra hu hx (h.log_ok hf)

theorem Inv.collectData {D : Type} {w : World D} {s s' : State D} (h : Inv w s) {i : Nat}
    (hs : collectData w s i = some s') : Inv w s' := by
  unfold Goroutines.collectData at hs
  cases hu : s.units[i]? with
  | none => simp [hu] at hs
  | some u =>
    simp only [hu] at hs
    have hok := h.units_ok u (List.getElem?_mem hu)
    unfold CUnit.OK at hok
    cases hp : u.pc <;> simp only [hp] at hs hok
    · -- fetchCall
      cases hs
      refine h.update_unit hu _ _ _ _ _ _ rfl ?_ ?_ (le_refl _) (fun _ => rfl) (Or.inl ⟨rfl, ?_⟩)
        ⟨[], by simp, ?_⟩ ⟨[], by simp, ?_⟩ ⟨[], by simp, ?_⟩ <;>
        simp [CUnit.OK, hp, hok, UnitPc.live, UnitPc.inCrit, CUnit.sentOpt, CUnit.storedOpt,
          CUnit.loggedOpt, UnitPc.pastSend, UnitPc.pastCreate]
    · -- fetching
      split at hs
      · rename_i data err hf
        cases hs
        refine h.update_unit hu _ _ _ _ _ _ rfl ?_ ?_ (le_refl _) (fun _ => rfl)
          (Or.inl ⟨rfl, ?_⟩) ⟨[], by simp, ?_⟩ ⟨[], by simp, ?_⟩ ⟨[_], rfl, ?_⟩ <;>
          simp [CUnit.OK, hp, hok, UnitPc.live, UnitPc.inCrit, CUnit.sentOpt, CUnit.storedOpt,
            CUnit.loggedOpt, UnitPc.pastSend, UnitPc.pastCreate, Job.fetched, Job.stored,
            Job.logged, hf]
        cases u.job.create <;> rfl
      · rename_i data hf
        cases hs
        refine h.update_unit hu _ _ _ _ _ _ rfl ?_ ?_ (le_refl _) (fun _ => rfl)
          (Or.inl ⟨rfl, ?_⟩) ⟨[], by simp, ?_⟩ ⟨[], by simp, ?_⟩ ⟨[], by simp, ?_⟩ <;>
          simp [CUnit.OK, hp, hok, UnitPc.live, UnitPc.inCrit, CUnit.sentOpt, CUnit.storedOpt,
            CUnit.loggedOpt, UnitPc.pastSend, UnitPc.pastCreate, hf]
    · -- lockMu
      split at hs
      · cases hs
      · rename_i hm
        cases hs
        refine h.update_unit hu _ _ _ _ _ _ rfl ?_ ?_ (le_refl _) (fun _ => rfl)
          (Or.inr (Or.inl ⟨hm, rfl, ?_⟩)) ⟨[], by simp, ?_⟩ ⟨[], by simp, ?_⟩ ⟨[], by simp, ?_⟩ <;>
          simp [CUnit.OK, hp, hok, UnitPc.live, UnitPc.inCrit, CUnit.sentOpt, CUnit.storedOpt,
            CUnit.loggedOpt, UnitPc.pastSend, UnitPc.pastCreate]
    · -- createCall
      cases hs
      refine h.update_unit hu _ _ _ _ _ _ rfl ?_ ?_ (le_refl _) (fun _ => rfl) (Or.inl ⟨rfl, ?_⟩)
        ⟨[], by simp, ?_⟩ ⟨[], by simp, ?_⟩ ⟨[], by simp, ?_⟩ <;>
        simp [CUnit.OK, hp, hok, UnitPc.live, UnitPc.inCrit, CUnit.sentOpt, CUnit.storedOpt,
          CUnit.loggedOpt, UnitPc.pastSend, UnitPc.pastCreate]
    · -- creating
      split at hs
      · rename_i err hc
        cases hs
        refine h.update_unit hu _ _ _ _ _ _ rfl ?_ ?_ (le_refl _) (fun _ => rfl)
          (Or.inl ⟨rfl, ?_⟩) ⟨[], by simp, ?_⟩ ⟨[], by simp, ?_⟩ ⟨[_], rfl, ?_⟩ <;>
          simp [CUnit.OK, hp, hok, UnitPc.live, UnitPc.inCrit, CUnit.sentOpt, CUnit.storedOpt,
            CUnit.loggedOpt, UnitPc.pastSend, UnitPc.pastCreate, Job.fetched, Job.stored,
            Job.logged, hc]
      · rename_i now hc
        cases hs
        refine h.update_unit hu _ _ _ _ _ _ rfl ?_ ?_ (le_refl _) (fun _ => rfl)
          (Or.inl ⟨rfl, ?_⟩) ⟨[], by simp, ?_⟩ ⟨[_], rfl, ?_⟩ ⟨[], by simp, ?_⟩ <;>
          simp [CUnit.OK, hp, hok, UnitPc.live, UnitPc.inCrit, CUnit.sentOpt, CUnit.storedOpt,
            CUnit.loggedOpt, UnitPc.pastSend, UnitPc.pastCreate, Job.fetched, Job.stored,
            Job.logged, hc]
    · -- unlockMu
      split at hs
      · cases hs
      · cases hs
        refine h.update_unit hu _ _ _ _ _ _ rfl ?_ ?_ (le_refl _) (fun _ => rfl)
          (Or.inr (Or.inr ⟨rfl, ?_, ?_⟩)) ⟨[], by simp, ?_⟩ ⟨[], by simp, ?_⟩ ⟨[], by simp, ?_⟩ <;>
          simp [CUnit.OK, hp, hok, UnitPc.live, UnitPc.inCrit, CUnit.sentOpt, CUnit.storedOpt,
            CUnit.loggedOpt, UnitPc.pastSend, UnitPc.pastCreate]
    · -- send
      split at hs
      · cases hs
      · rename_i hcl
        split at hs
        · cases hs
          have hsv : s.mainPc = .serve → s.results ++ [u.data] = s.results := by
            intro hm
            have h1 := h.main_ok
            simp only [MainOK, hm] at h1
            exact absurd (h.closed_iff.mpr h1.2.1) hcl
          refine h.update_unit hu _ _ _ _ _ _ rfl ?_ ?_ (le_refl _) hsv
            (Or.inl ⟨rfl, ?_⟩) ⟨[_], rfl, ?_⟩ ⟨[], by simp, ?_⟩ ⟨[], by simp, ?_⟩ <;>
            simp [CUnit.OK, hp, hok, UnitPc.live, UnitPc.inCrit, CUnit.sentOpt, CUnit.storedOpt,
              CUnit.loggedOpt, UnitPc.pastSend, UnitPc.pastCreate, Job.fetched, Job.stored,
              Job.logged]
        · cases hs
    · -- wgDone
      split at hs
      · rename_i hpos
        cases hs
        refine h.update_unit hu _ _ _ _ _ _ rfl ?_ ?_ (Nat.sub_le _ _) (fun _ => rfl)
          (Or.inl ⟨rfl, ?_⟩) ⟨[], by simp, ?_⟩ ⟨[], by simp, ?_⟩ ⟨[], by simp, ?_⟩ <;>
          simp [CUnit.OK, hp, hok, UnitPc.live, UnitPc.inCrit, CUnit.sentOpt, CUnit.storedOpt,
            CUnit.loggedOpt, UnitPc.pastSend, UnitPc.pastCreate]
        omega
      · cases hs
    · -- exited
      cases hs

theorem Inv.closer {D : Type} {w : World D} {s s' : State D} (h : Inv w s)
    (hs : closer s = some s') : Inv w s' := by
  unfold Goroutines.closer at hs
  have hm := h.main_ok
  have hwg := h.wg_eq
  have hci := h.closed_iff
  cases hc : s.closerPc <;> simp only [hc] at hs hci
  · cases hs
  · split at hs
    · rename_i h0
      cases hs
      refine ⟨h.units_ok, h.jobs_eq, ?_, h.wg_eq, h.mu_ok, h.mu_held, ?_, fun _ => h0, h.chan,
        h.db_ok, h.log_ok⟩
      · unfold MainOK at hm ⊢
        cases hp : s.mainPc <;> simp only [hp, hc] at hm ⊢ <;> simp_all
      · simpa using hci
    · cases hs
  · split at hs
    · cases hs
    · cases hs
      refine ⟨h.units_ok, h.jobs_eq, ?_, h.wg_eq, h.mu_ok, h.mu_held, ?_,
        fun _ => h.drained (Or.inl hc), h.chan, h.db_ok, h.log_ok⟩
      · unfold MainOK at hm ⊢
        cases hp : s.mainPc <;> simp only [hp, hc] at hm ⊢ <;> simp_all
      · simp
  · cases hs

theorem Inv.main {D : Type} {w : World D} {s s' : State D} (h : Inv w s)
    (hs : main w s = some s') : Inv w s' := by
  unfold Goroutines.main at hs
  have hm := h.main_ok
  have hwg := h.wg_eq
  have hlog := h.log_ok
  have hdr := h.drained
  unfold MainOK at hm
  cases hp : s.mainPc <;> simp only [hp] at hs hm hwg hlog
  · -- init
    have hnil : s.units = [] := List.length_eq_zero.mp hm.1
    split at hs
    · rename_i x err he
      cases hs
      refine ⟨h.units_ok, h.jobs_eq, ?_, by simpa using hwg, h.mu_ok, h.mu_held, h.closed_iff,
        h.drained, h.chan, h.db_ok, by simp⟩
      have hl : s.log = [] := by
        have := hlog (by simp)
        simpa [hnil] using this
      simp only [MainOK]
      exact ⟨hm.1, hm.2, err, by simp [World.initErr, he], by simp [hl]⟩
    · rename_i x he
      cases hs
      refine ⟨h.units_ok, h.jobs_eq, ?_, by simpa using hwg, h.mu_ok, h.mu_held, h.closed_iff,
        h.drained, h.chan, h.db_ok, fun _ => hlog (by simp)⟩
      simp only [MainOK]
      exact ⟨hm.1, Nat.zero_le _, hm.2, by simp [World.initErr, he]⟩
  · -- loopAdd
    rename_i k
    split at hs
    · rename_i hk
      cases hs
      refine ⟨h.units_ok, h.jobs_eq, ?_, by simpa using hwg, h.mu_ok, h.mu_held, h.closed_iff,
        h.drained, h.chan, h.db_ok, fun _ => hlog (by simp)⟩
      simp only [MainOK]
      have := List.getElem?_eq_none_iff.mp hk
      exact ⟨by omega, hm.2.2⟩
    · rename_i j hk
      cases hs
      refine ⟨h.units_ok, h.jobs_eq, ?_, by simp [hwg], h.mu_ok, h.mu_held, h.closed_iff,
        ?_, h.chan, h.db_ok, fun _ => hlog (by simp)⟩
      · simp only [MainOK]
        have := (List.getElem?_eq_some_iff.mp hk).1
        exact ⟨hm.1, this, hm.2.2⟩
      · intro hc
        simp [hm.2.2.1] at hc
  · -- loopGo
    rename_i k
    split at hs
    · cases hs
    · rename_i j hk
      cases hs
      have hlt := (List.getElem?_eq_some_iff.mp hk).1
      refine ⟨?_, ?_, ?_, ?_, ?_, ?_, h.closed_iff, ?_, ?_, ?_, ?_⟩
      · intro u hu
        rcases List.mem_append.mp hu with hu | hu
        · exact h.units_ok u hu
        · simp at hu
          subst hu
          simp [CUnit.OK, CUnit.spawn]
      · have := h.jobs_eq
        simp only [List.map_append, List.length_append, List.length_cons, List.length_nil,
          List.map_cons, List.map_nil, this, hm.1, CUnit.spawn]
        rw [List.take_succ, hk]
        simp
      · simp only [MainOK]
        refine ⟨by simp [hm.1], by omega, hm.2.2⟩
      · simp [hwg, CUnit.spawn, UnitPc.live, List.countP_append]
      · intro i u hu hc
        by_cases hi : i < s.units.length
        · rw [List.getElem?_append_left hi] at hu
          exact h.mu_ok i u hu hc
        · rw [List.getElem?_append_right (by omega)] at hu
          have : u = CUnit.spawn j := by
            cases hn : i - s.units.length with
            | zero => simp [hn] at hu; exact hu.symm
            | succ n => simp [hn] at hu
          subst this
          simp [CUnit.spawn, UnitPc.inCrit] at hc
      · intro i hi
        obtain ⟨u, hu, hc⟩ := h.mu_held i hi
        have hlt := (List.getElem?_eq_some_iff.mp hu).1
        exact ⟨u, by rw [List.getElem?_append_left hlt]; exact hu, hc⟩
      · intro hc
        simp [hm.2.2.1] at hc
      · simpa [List.filterMap_append, CUnit.sentOpt, CUnit.spawn, UnitPc.pastSend] using h.chan
      · simpa [List.filterMap_append, CUnit.storedOpt, CUnit.spawn, UnitPc.pastCreate]
          using h.db_ok
      · intro _
        simpa [List.filterMap_append, CUnit.loggedOpt, CUnit.spawn, UnitPc.pastCreate]
          using hlog (by simp)
  · -- goCloser
    cases hs
    refine ⟨h.units_ok, h.jobs_eq, ?_, by simpa using hwg, h.mu_ok, h.mu_held, ?_,
      ?_, h.chan, h.db_ok, fun _ => hlog (by simp)⟩
    · simp only [MainOK]
      exact ⟨hm.1, by simp, hm.2.2⟩
    · have := h.closed_iff
      simp [hm.2.1] at this
      simp [this]
    · intro hc
      simp at hc
  · -- recv
    split at hs
    · rename_i result rest hr
      cases hs
      refine ⟨h.units_ok, h.jobs_eq, ?_, by simpa using hwg, h.mu_ok, h.mu_held, h.closed_iff,
        h.drained, ?_, h.db_ok, fun _ => hlog (by simp)⟩
      · simp only [MainOK, hp]
        exact hm
      · have := h.chan
        simpa [hr] using this
    · rename_i hr
      split at hs
      · rename_i hcl
        cases hs
        refine ⟨h.units_ok, h.jobs_eq, ?_, by simpa using hwg, h.mu_ok, h.mu_held, h.closed_iff,
          h.drained, h.chan, h.db_ok, fun _ => hlog (by simp)⟩
        simp only [MainOK]
        exact ⟨hm.1, h.closed_iff.mp hcl, hr, hm.2.2⟩
      · cases hs
  · cases hs
  · cases hs

theorem Inv.start {D : Type} (w : World D) : Inv w (State.start w) := by
  refine ⟨?_, ?_, ?_, ?_, ?_, ?_, ?_, ?_, ?_, ?_, ?_⟩ <;>
    simp [State.start, MainOK]

theorem Inv.step {D : Type} {w : World D} {s s' : State D} (h : Inv w s) {t : Thread}
    (hs : step w s t = some s') : Inv w s' := by
  cases t with
  | main => exact h.main hs
  | closer => exact h.closer hs
  | unit i => exact h.collectData hs

theorem Inv.run {D : Type} {w : World D} :
    ∀ (sched : List Thread) {s s' : State D}, Inv w s → run w s sched = some s' → Inv w s'
  | [], s, s', h, hr => by
    simp [Goroutines.run] at hr
    exact hr ▸ h
  | t :: ts, s, s', h, hr => by
    simp only [Goroutines.run] at hr
    cases hs : Goroutines.step w s t with
    | none => simp [hs] at hr
    | some s1 =>
      simp only [hs, Option.some_bind] at hr
      exact Inv.run ts (h.step hs) hr

/-! ## Termination and absence of deadlock -/

theorem fuel_update {D : Type} (w : World D) (s : State D) {i : Nat} {u : CUnit D}
    (hu : s.units[i]? = some u) (u' : CUnit D) (m' : Option Nat) (g' : Nat) (r' : List String)
    (d' : List DataSummary) (l' : List String)
    (hlt : r'.length + 2 * u'.pc.rank < s.results.length + 2 * u.pc.rank) :
    State.fuel w { s with units := s.units.set i u', mu := m', wg := g', results := r',
                          db := d', log := l' } < State.fuel w s := by
  have := sum_map_set_add (fun u : CUnit D => u.pc.rank) s.units i u u' hu
  simp only at this
  simp only [State.fuel]
  omega

/-- Every step of the machine uses up fuel. -/
theorem fuel_step {D : Type} {w : World D} {s s' : State D} (h : Inv w s) {t : Thread}
    (hs : step w s t = some s') : s'.fuel w < s.fuel w := by
  cases t with
  | main =>
    simp only [Goroutines.step, Goroutines.main] at hs
    have hm := h.main_ok
    unfold MainOK at hm
    unfold State.fuel
    cases hp : s.mainPc <;> simp only [hp] at hs hm ⊢
    · split at hs <;> cases hs <;> simp
    · split at hs <;> cases hs <;> simp
    · split at hs
      · cases hs
      · rename_i j hk
        cases hs
        have := (List.getElem?_eq_some_iff.mp hk).1
        simp [CUnit.spawn, UnitPc.rank, hm.2.2.1]
        omega
    · cases hs
      simp [hm.2.1]
    · split at hs
      · rename_i hr
        cases hs
        simp [hr]
      · split at hs <;> cases hs
        simp
    · cases hs
    · cases hs
  | closer =>
    simp only [Goroutines.step, Goroutines.closer] at hs
    unfold State.fuel
    cases hp : s.closerPc <;> simp only [hp] at hs ⊢
    · cases hs
    · split at hs <;> cases hs
      simp
    · split at hs <;> cases hs
      simp
    · cases hs
  | unit i =>
    simp only [Goroutines.step, Goroutines.collectData] at hs
    cases hu : s.units[i]? with
    | none => simp [hu] at hs
    | some u =>
      simp only [hu] at hs
      cases hp : u.pc <;> simp only [hp] at hs
      all_goals repeat' split at hs
      all_goals
        first
        | (cases hs; done)
        | (cases hs
           refine fuel_update w s hu _ _ _ _ _ _ ?_
           simp [hp, UnitPc.rank])

theorem length_filterMap_lt {α β : Type} (f : α → Option β) :
    ∀ (l : List α) (i : Nat) (u : α), l[i]? = some u → f u = none →
      (l.filterMap f).length < l.length
  | [], i, u, h, _ => by simp at h
  | a :: t, 0, u, h, hf => by
    simp at h
    subst h
    simp only [List.filterMap_cons, hf, List.length_cons]
    exact Nat.lt_succ_of_le (List.length_filterMap_le f t)
  | a :: t, i + 1, u, h, hf => by
    simp at h
    have ih := length_filterMap_lt f t i u h hf
    simp only [List.filterMap_cons, List.length_cons]
    cases f a <;> simp <;> omega

theorem inv_length_le {D : Type} {w : World D} {s : State D} (h : Inv w s) :
    s.units.length ≤ w.jobs.length := by
  have := congrArg List.length h.jobs_eq
  simp at this
  omega

/-- A unit about to send finds room in the channel. -/
theorem inv_room {D : Type} {w : World D} {s : State D} (h : Inv w s) {i : Nat} {u : CUnit D}
    (hu : s.units[i]? = some u) (hp : u.pc.pastSend = false) :
    s.stdout.length + s.results.length < w.jobs.length := by
  have h1 := h.chan.length_eq
  have h2 := length_filterMap_lt (CUnit.sentOpt w.fmtV) s.units i u hu (by simp [CUnit.sentOpt, hp])
  have h3 := inv_length_le h
  simp at h1
  omega

/-- A unit that has not exited can move, or the holder of the mutex can. -/
theorem unit_progress {D : Type} {w : World D} {s : State D} (h : Inv w s)
    (hcl : s.closed = false) {i : Nat} {u : CUnit D} (hu : s.units[i]? = some u)
    (hl : u.pc.live = true) : ∃ t s', step w s t = some s' := by
  have hcrit : ∀ j (x : CUnit D), s.units[j]? = some x → x.pc.inCrit = true →
      ∃ s', step w s (.unit j) = some s' := by
    intro j x hx hc
    have hmu := h.mu_ok j x hx hc
    simp only [step, collectData, hx]
    cases hp : x.pc <;> simp [hp, UnitPc.inCrit] at hc ⊢
    · cases x.job.create <;> simp
    · simp [hmu]
  cases hp : u.pc
  case lockMu =>
    cases hm : s.mu with
    | none => exact ⟨.unit i, by simp [step, collectData, hu, hp, hm]⟩
    | some j =>
      obtain ⟨x, hx, hc⟩ := h.mu_held j hm
      exact ⟨.unit j, hcrit j x hx hc⟩
  case createCall => exact ⟨.unit i, hcrit i u hu (by simp [hp, UnitPc.inCrit])⟩
  case creating => exact ⟨.unit i, hcrit i u hu (by simp [hp, UnitPc.inCrit])⟩
  case unlockMu => exact ⟨.unit i, hcrit i u hu (by simp [hp, UnitPc.inCrit])⟩
  case fetchCall => exact ⟨.unit i, by simp [step, collectData, hu, hp]⟩
  case fetching =>
    refine ⟨.unit i, ?_⟩
    simp only [step, collectData, hu, hp]
    split <;> simp
  case send =>
    have := inv_room h hu (by simp [hp, UnitPc.pastSend])
    refine ⟨.unit i, ?_⟩
    simp only [step, collectData, hu, hp, hcl]
    have : s.results.length < w.jobs.length := by omega
    simp [this]
  case wgDone =>
    have hpos : 0 < s.units.countP (fun u => u.pc.live) :=
      List.countP_pos_iff.mpr ⟨u, List.getElem?_mem hu, hl⟩
    have := h.wg_eq
    refine ⟨.unit i, ?_⟩
    simp only [step, collectData, hu, hp]
    have : 0 < s.wg := by omega
    simp [this]
  case exited => simp [hp, UnitPc.live] at hl

/-- No deadlock: as long as `main` has neither started the server nor exited,
some thread can move. -/
theorem progress {D : Type} {w : World D} {s : State D} (h : Inv w s)
    (hserve : s.mainPc ≠ .serve) (hfatal : s.mainPc ≠ .fatal) :
    ∃ t s', step w s t = some s' := by
  have hm := h.main_ok
  unfold MainOK at hm
  cases hp : s.mainPc <;> simp only [hp] at hm
  case serve => exact absurd hp hserve
  case fatal => exact absurd hp hfatal
  case init =>
    refine ⟨.main, ?_⟩
    simp only [step, main, hp]
    split <;> simp
  case loopAdd k =>
    refine ⟨.main, ?_⟩
    simp only [step, main, hp]
    split <;> simp
  case loopGo k =>
    refine ⟨.main, ?_⟩
    simp only [step, main, hp]
    have : k < w.jobs.length := hm.2.1
    simp [List.getElem?_eq_getElem this]
  case goCloser => exact ⟨.main, by simp [step, main, hp]⟩
  case recv =>
    cases hr : s.results with
    | cons r rest => exact ⟨.main, by simp [step, main, hp, hr]⟩
    | nil =>
      cases hcl : s.closed with
      | true => exact ⟨.main, by simp [step, main, hp, hr, hcl]⟩
      | false =>
        have hne : s.closerPc ≠ .exited := by
          intro hc
          have := h.closed_iff.mpr hc
          simp [hcl] at this
        cases hc : s.closerPc with
        | idle => exact absurd hc hm.2.1
        | exited => exact absurd hc hne
        | close => exact ⟨.closer, by simp [step, closer, hc, hcl]⟩
        | wait =>
          by_cases h0 : s.wg = 0
          · exact ⟨.closer, by simp [step, closer, hc, h0]⟩
          · have hw := h.wg_eq
            simp only [hp] at hw
            have hpos : 0 < s.units.countP (fun u => u.pc.live) := by omega
            obtain ⟨u, hu, hl⟩ := List.countP_pos_iff.mp hpos
            obtain ⟨i, hi⟩ := List.getElem?_of_mem hu
            exact unit_progress h hcl hi hl

/-- A run cannot be longer than the fuel of the state it starts in. -/
theorem run_length_le {D : Type} {w : World D} :
    ∀ (sched : List Thread) {s s' : State D}, Inv w s → run w s sched = some s' →
      s'.fuel w + sched.length ≤ s.fuel w
  | [], s, s', _, hr => by
    simp [Goroutines.run] at hr
    simp [hr]
  | t :: ts, s, s', h, hr => by
    simp only [Goroutines.run] at hr
    cases hs : Goroutines.step w s t with
    | none => simp [hs] at hr
    | some s1 =>
      simp only [hs, Option.some_bind] at hr
      have h1 := run_length_le ts (h.step hs) hr
      have h2 := fuel_step h hs
      simp only [List.length_cons]
      omega

/-- From every state satisfying the invariant some schedule runs `main` to the
server or to the fatal exit. -/
theorem completes {D : Type} {w : World D} :
    ∀ (n : Nat) (s : State D), Inv w s → s.fuel w ≤ n →
      ∃ sched s', run w s sched = some s' ∧ (s'.mainPc = .serve ∨ s'.mainPc = .fatal)
  | 0, s, h, hn => by
    by_cases h1 : s.mainPc = .serve
    · exact ⟨[], s, rfl, Or.inl h1⟩
    by_cases h2 : s.mainPc = .fatal
    · exact ⟨[], s, rfl, Or.inr h2⟩
    obtain ⟨t, s1, hs⟩ := progress h h1 h2
    have := fuel_step h hs
    omega
  | n + 1, s, h, hn => by
    by_cases h1 : s.mainPc = .serve
    · exact ⟨[], s, rfl, Or.inl h1⟩
    by_cases h2 : s.mainPc = .fatal
    · exact ⟨[], s, rfl, Or.inr h2⟩
    obtain ⟨t, s1, hs⟩ := progress h h1 h2
    have hlt := fuel_step h hs
    obtain ⟨sched, s2, hr, hfin⟩ := completes n s1 (h.step hs) (by omega)
    exact ⟨t :: sched, s2, by simp [run, hs, hr], hfin⟩

/-! ## The state in which the server starts -/

theorem filterMap_units {D : Type} {β : Type} (g : Job D → Option β) (f : CUnit D → Option β)
    (l : List (CUnit D)) (jobs : List (Job D)) (hj : l.map (fun u => u.job) = jobs)
    (hf : ∀ u ∈ l, f u = g u.job) : l.filterMap f = jobs.filterMap g := by
  rw [← hj, List.filterMap_map]
  exact List.filterMap_congr hf

theorem Inv.final {D : Type} {w : World D} {s : State D} (h : Inv w s)
    (hs : s.mainPc = .serve) : Final w s := by
  have hm := h.main_ok
  simp only [MainOK, hs] at hm
  have hw := h.wg_eq
  simp only [hs] at hw
  have h0 := h.drained (Or.inr hm.2.1)
  have hex : ∀ u ∈ s.units, u.pc = .exited := by
    intro u hu
    by_contra hne
    have : 0 < s.units.countP (fun u => u.pc.live) :=
      List.countP_pos_iff.mpr ⟨u, hu, by cases hp : u.pc <;> simp_all [UnitPc.live]⟩
    omega
  have hj : s.units.map (fun u => u.job) = w.jobs := by
    rw [h.jobs_eq, hm.1, List.take_length]
  refine ⟨hj, hex, ?_, ?_, hm.2.2.1, h.closed_iff.mpr hm.2.1, ?_, ?_, ?_⟩
  · intro u hu
    have := h.units_ok u hu
    simp only [CUnit.OK, hex u hu] at this
    refine ⟨this.1, this.2.1, ?_⟩
    rw [this.2.2]
    split <;> simp
  · have := h.chan
    rw [hm.2.2.1, List.append_nil] at this
    rw [← filterMap_units (Job.fetched w.fmtV) (CUnit.sentOpt w.fmtV) s.units w.jobs hj]
    · exact this
    · intro u hu
      simp [CUnit.sentOpt, hex u hu, UnitPc.pastSend]
  · cases hmu : s.mu with
    | none => rfl
    | some i =>
      obtain ⟨u, hu, hc⟩ := h.mu_held i hmu
      simp [hex u (List.getElem?_mem hu), UnitPc.inCrit] at hc
  · obtain ⟨new, hn, hp⟩ := h.db_ok
    refine ⟨new, hn, ?_⟩
    rw [← filterMap_units (Job.stored w.fmtV) (CUnit.storedOpt w.fmtV) s.units w.jobs hj]
    · exact hp
    · intro u hu
      simp [CUnit.storedOpt, hex u hu, UnitPc.pastCreate]
  · have := h.log_ok (by simp [hs])
    rw [← filterMap_units (Job.logged w.fmtV) (CUnit.loggedOpt w.fmtV) s.units w.jobs hj]
    · exact this
    · intro u hu
      simp [CUnit.loggedOpt, hex u hu, UnitPc.pastCreate]

/-- When `initDB` succeeds some schedule runs the program to `startServer`, and
no schedule ends in the fatal exit. -/
theorem reaches_serve {D : Type} (w : World D) (hinit : w.initErr = none) :
    ∃ sched s, run w (State.start w) sched = some s ∧ s.mainPc = .serve := by
  obtain ⟨sched, s, hr, hfin⟩ := completes _ (State.start w) (Inv.start w) (le_refl _)
  refine ⟨sched, s, hr, ?_⟩
  rcases hfin with hfin | hfin
  · exact hfin
  · have := (Inv.run sched (Inv.start w) hr).main_ok
    simp only [MainOK, hfin] at this
    obtain ⟨_, _, err, he, _⟩ := this
    rw [hinit] at he
    cases he

theorem never_stuck {D : Type} (w : World D) (hinit : w.initErr = none) (sched : List Thread)
    (s : State D) (hrun : run w (State.start w) sched = some s) (hne : s.mainPc ≠ .serve) :
    ∃ t s', step w s t = some s' := by
  have h := Inv.run sched (Inv.start w) hrun
  refine progress h hne ?_
  intro hf
  have := h.main_ok
  simp only [MainOK, hf] at this
  obtain ⟨_, _, err, he, _⟩ := this
  rw [hinit] at he
  cases he

/-- Whenever initDB succeeds: some schedule reaches startServer, no schedule is
longer than the fuel of the start state, and before startServer some thread can
always move; so every run that is carried on as long as a thread can move ends
at startServer. -/
theorem always_completes {D : Type} (w : World D) (hinit : w.initErr = none) :
    (∃ sched s, run w (State.start w) sched = some s ∧ s.mainPc = .serve) ∧
    ∀ sched s, run w (State.start w) sched = some s →
      sched.length ≤ (State.start w).fuel w ∧
      (s.mainPc ≠ .serve → ∃ t s', step w s t = some s') := by
  refine ⟨reaches_serve w hinit, ?_⟩
  intro sched s hrun
  refine ⟨?_, never_stuck w hinit sched s hrun⟩
  have := run_length_le sched (Inv.start w) hrun
  omega

/-! ## The query service -/

theorem marshal_toRow (fmtTime : Nat → String) (r : DataSummary) :
    (r.marshal fmtTime).toRow = some (r.ID, r.Source, fmtTime r.Timestamp) := by
  simp [DataSummary.marshal, Json.toRow, Json.member, DataSummary.fields, jsonKey, List.lookup]

theorem payload_ne_empty (x : String) : "Data from API: " ++ x ≠ "" := by
  intro h
  have := congrArg String.length h
  simp [String.length_append] at this
  exact absurd this.1 (by decide)

/-- C5, amended: for every Store content, the successful response of GET /data
is a JSON array with one object per record, and each object has exactly the
fields named ID, Source and Timestamp, holding the id as a number, the stored
payload text and the timestamp as a string. -/
theorem getData_fields (fmtTime : Nat → String) (rows : List DataSummary) :
    (getData fmtTime (.ok rows)).status = 200 ∧
    (getData fmtTime (.ok rows)).body.isArr = true ∧
    (getData fmtTime (.ok rows)).body.items.map Json.keys =
      rows.map (fun _ => ["ID", "Source", "Timestamp"]) ∧
    (getData fmtTime (.ok rows)).body.items.map
        (fun item => (item.member "ID", item.member "Source", item.member "Timestamp")) =
      rows.map (fun r => (some (.num r.ID), some (.str r.Source),
        some (.str (fmtTime r.Timestamp)))) := by
  refine ⟨rfl, rfl, ?_, ?_⟩
  · simp only [getData, Json.items, List.map_map]
    apply List.map_congr_left
    intro r _
    rfl
  · simp only [getData, Json.items, List.map_map]
    apply List.map_congr_left
    intro r _
    simp [DataSummary.marshal, Json.member, DataSummary.fields, jsonKey, List.lookup]

/-- C5, as stated, fails: the one object served for a Store holding one record
has the fields ID, Source and Timestamp, and none named id, source or
created_at. -/
theorem getData_fields_counterexample :
    ((getData toString (.ok [⟨1, "Data from API: map[]", 0⟩])).body.items.map Json.keys
        = [["ID", "Source", "Timestamp"]]) ∧
    ((getData toString (.ok [⟨1, "Data from API: map[]", 0⟩])).body.items.map
        (fun item => ((item.member "id").isSome, (item.member "source").isSome,
          (item.member "created_at").isSome)) = [(false, false, false)]) := by
  constructor <;> rfl

/-- C6: when the Store read succeeds the handler answers 200 with exactly the
records read, in order; when it fails the handler answers 500 (never 200) with
a JSON object whose single field error holds the message. -/
theorem getData_response (fmtTime : Nat → String) :
    (∀ rows, (getData fmtTime (.ok rows)).status = 200 ∧
      (getData fmtTime (.ok rows)).body.isArr = true ∧
      (getData fmtTime (.ok rows)).body.items.length = rows.length ∧
      (getData fmtTime (.ok rows)).body.items.map Json.toRow =
        rows.map (fun r => some (r.ID, r.Source, fmtTime r.Timestamp))) ∧
    (∀ err, (getData fmtTime (.error err)).status = 500 ∧
      (getData fmtTime (.error err)).status ≠ 200 ∧
      (getData fmtTime (.error err)).body.isArr = false ∧
      (getData fmtTime (.error err)).body.keys = ["error"] ∧
      (getData fmtTime (.error err)).body.member "error" = some (.str err)) := by
  constructor
  · intro rows
    refine ⟨rfl, rfl, by simp [getData, Json.items], ?_⟩
    simp only [getData, Json.items, List.map_map]
    apply List.map_congr_left
    intro r _
    exact marshal_toRow fmtTime r
  · intro err
    refine ⟨rfl, by simp [getData], rfl, rfl, ?_⟩
    simp [getData, Json.member, List.lookup]

/-- C7: on success the text returned by fetchDataFromAPI is a function of the
decoded value alone (two responses decoding to the same value give the same
text, whatever else differs) and is never empty; on a network failure or a
decode failure the function returns the empty text and the error. -/
theorem fetchDataFromAPI_text {D : Type} (fmtV : D → String) :
    (∀ (code : Nat) (d : D),
      fetchDataFromAPI fmtV (.ok ⟨code, .ok d⟩) = ("Data from API: " ++ fmtV d, none) ∧
      (fetchDataFromAPI fmtV (.ok ⟨code, .ok d⟩)).1 ≠ "") ∧
    (∀ (code1 code2 : Nat) (d : D),
      fetchDataFromAPI fmtV (.ok ⟨code1, .ok d⟩) = fetchDataFromAPI fmtV (.ok ⟨code2, .ok d⟩)) ∧
    (∀ err, fetchDataFromAPI fmtV (.error err) = ("", some err)) ∧
    (∀ (code : Nat) err, fetchDataFromAPI fmtV (.ok ⟨code, .error err⟩) = ("", some err)) :=
  ⟨fun _ _ => ⟨rfl, payload_ne_empty _⟩, fun _ _ _ => rfl, fun _ => rfl, fun _ _ => rfl⟩

/-! ## The collection pass -/

theorem fetch_ok_ne_empty {D : Type} (fmtV : D → String) (get : Except String (HttpResponse D))
    (data : String) (h : fetchDataFromAPI fmtV get = (data, none)) : data ≠ "" := by
  unfold fetchDataFromAPI at h
  split at h
  · cases h
  · split at h
    · cases h
    · cases h
      intro h
      have := congrArg String.length h
      simp [String.length_append] at this
      exact absurd this.1 (by decide)

theorem stored_ne_empty {D : Type} (fmtV : D → String) (j : Job D) (data : String)
    (h : j.stored fmtV = some data) : data ≠ "" := by
  unfold Job.stored at h
  split at h
  · unfold Job.fetched at h
    split at h
    · rename_i hf
      cases h
      exact fetch_ok_ne_empty fmtV _ _ hf
    · cases h
  · cases h

theorem filterMap_eraseIdx {α β : Type} (g : α → Option β) :
    ∀ (l : List α) (i : Nat) (a : α), l[i]? = some a → g a = none →
      (l.eraseIdx i).filterMap g = l.filterMap g
  | [], i, a, h, _ => by simp at h
  | x :: t, 0, a, h, hg => by
    simp at h
    subst h
    simp [hg]
  | x :: t, i + 1, a, h, hg => by
    simp at h
    simp only [List.eraseIdx_cons_succ, List.filterMap_cons, filterMap_eraseIdx g t i a h hg]

theorem run_serve_final {D : Type} {w : World D} {sched : List Thread} {s : State D}
    (hrun : run w (State.start w) sched = some s) (hserve : s.mainPc = .serve) : Final w s :=
  (Inv.run sched (Inv.start w) hrun).final hserve

/-- C1, amended: for every list of sources and every outcome of the fetches and
of the inserts, the collection pass puts in the Store exactly one record for each
source whose fetch and insert both succeeded and none for any other source, each
unit calling fetchDataFromAPI once and db.Create at most once; a failed fetch only
leaves its line in the log, and main goes on to startServer. -/
theorem collect_one_record_per_stored {D : Type} (w : World D) (hinit : w.initErr = none) :
    (∃ sched s, run w (State.start w) sched = some s ∧ s.mainPc = .serve) ∧
    ∀ sched s, run w (State.start w) sched = some s → s.mainPc = .serve →
      (∃ new, s.db = w.disk ++ new ∧
        (new.map (fun r => r.Source)).Perm (w.jobs.filterMap (Job.stored w.fmtV))) ∧
      s.log.Perm (w.jobs.filterMap (Job.logged w.fmtV)) ∧
      s.units.map (fun u => u.job) = w.jobs ∧
      ∀ u ∈ s.units, u.pc = .exited ∧ u.fetches = 1 ∧ u.creates ≤ 1 := by
  refine ⟨reaches_serve w hinit, ?_⟩
  intro sched s hrun hserve
  have hf := run_serve_final hrun hserve
  exact ⟨hf.stored, hf.logged, hf.jobs, fun u hu => ⟨hf.exited u hu, (hf.once u hu).1, (hf.once u hu).2.2⟩⟩

/-- C1 at `mixedWorld`: one source stored, one failed fetch and one failed
insert logged. -/
theorem collect_one_record_per_stored_witness :
    mixedWorld.initErr = none ∧
    ∃ s, run mixedWorld (State.start mixedWorld) mixedSched = some s ∧ s.mainPc = .serve ∧
      ((∃ new, s.db = mixedWorld.disk ++ new ∧
        (new.map (fun r => r.Source)).Perm (mixedWorld.jobs.filterMap (Job.stored mixedWorld.fmtV))) ∧
      s.log.Perm (mixedWorld.jobs.filterMap (Job.logged mixedWorld.fmtV)) ∧
      s.units.map (fun u => u.job) = mixedWorld.jobs ∧
      ∀ u ∈ s.units, u.pc = .exited ∧ u.fetches = 1 ∧ u.creates ≤ 1) :=
  ⟨rfl, _, rfl, rfl, (collect_one_record_per_stored mixedWorld rfl).2 mixedSched _ rfl rfl⟩

/-- C1, as stated, fails: with one source whose fetch succeeds and whose insert
fails, the pass completes, one fetch has succeeded and no record has been
inserted. -/
theorem collect_one_record_per_fetch_counterexample :
    ∃ s, run insertFailWorld (State.start insertFailWorld) insertFailSched = some s ∧
      s.mainPc = .serve ∧
      (insertFailWorld.jobs.filterMap (Job.fetched insertFailWorld.fmtV)).length = 1 ∧
      s.db = insertFailWorld.disk ∧ s.db.length = 0 := by
  decide

theorem stored_none_of_fail {D : Type} (fmtV : D → String) (j : Job D)
    (h : (fetchDataFromAPI fmtV j.get).2 ≠ none ∨ ∃ err, j.create = .error err) :
    j.stored fmtV = none := by
  unfold Job.stored Job.fetched
  rcases h with h | ⟨err, h⟩
  · split
    · split
      · rename_i hf
        rw [hf] at h
        exact absurd rfl h
      · rfl
    · rfl
  · rw [h]

theorem units_jobs_mem {D : Type} {w : World D} {s : State D} (h : Inv w s) :
    ∀ u ∈ s.units, u.job ∈ w.jobs := by
  intro u hu
  have h1 : u.job ∈ s.units.map (fun u => u.job) := List.mem_map_of_mem _ hu
  rw [h.jobs_eq] at h1
  exact List.mem_of_mem_take h1

theorem db_eq_disk_of_all_fail {D : Type} {w : World D} {s : State D} (h : Inv w s)
    (hall : ∀ j ∈ w.jobs, j.stored w.fmtV = none) : s.db = w.disk := by
  obtain ⟨new, hn, hp⟩ := h.db_ok
  have : s.units.filterMap (CUnit.storedOpt w.fmtV) = [] := by
    rw [List.filterMap_eq_nil_iff]
    intro u hu
    simp only [CUnit.storedOpt, hall _ (units_jobs_mem h u hu)]
    split <;> rfl
  rw [this] at hp
  have hnil : new = [] := by simpa using hp.eq_nil
  simp [hn, hnil]

theorem unit_counters_le {D : Type} {w : World D} {s : State D} (h : Inv w s) :
    ∀ u ∈ s.units, u.fetches ≤ 1 ∧ u.creates ≤ 1 ∧ u.dones ≤ 1 := by
  intro u hu
  have := h.units_ok u hu
  unfold CUnit.OK at this
  cases hp : u.pc <;> simp only [hp] at this <;> (try split at this) <;> omega

/-- C2: a source whose fetch or insert fails is not tried again (no unit ever
calls fetchDataFromAPI or db.Create twice) and does not disturb the others: a
complete pass over the list and a complete pass over the list without that
source insert the same payloads; when every source fails, no record is ever
inserted; and whenever initDB succeeds the pass completes: some schedule reaches
startServer, runs are bounded in length and before startServer some thread can
always move. -/
theorem failed_source_is_skipped {D : Type} (w : World D) (i : Nat) (j : Job D)
    (hj : w.jobs[i]? = some j)
    (hfail : (fetchDataFromAPI w.fmtV j.get).2 ≠ none ∨ ∃ err, j.create = .error err) :
    (∀ sched s sched' s',
      run w (State.start w) sched = some s → s.mainPc = .serve →
      run { w with jobs := w.jobs.eraseIdx i }
        (State.start { w with jobs := w.jobs.eraseIdx i }) sched' = some s' →
      s'.mainPc = .serve →
      ∃ new new', s.db = w.disk ++ new ∧ s'.db = w.disk ++ new' ∧
        (new.map (fun r => r.Source)).Perm (new'.map (fun r => r.Source))) ∧
    (∀ sched s, run w (State.start w) sched = some s →
      ∀ u ∈ s.units, u.fetches ≤ 1 ∧ u.creates ≤ 1) ∧
    (w.initErr = none →
      (∃ sched s, run w (State.start w) sched = some s ∧ s.mainPc = .serve) ∧
      ∀ sched s, run w (State.start w) sched = some s →
        sched.length ≤ (State.start w).fuel w ∧
        (s.mainPc ≠ .serve → ∃ t s', step w s t = some s')) ∧
    ((∀ k ∈ w.jobs, (fetchDataFromAPI w.fmtV k.get).2 ≠ none ∨ ∃ err, k.create = .error err) →
      ∀ sched s, run w (State.start w) sched = some s → s.db = w.disk) := by
  refine ⟨?_, ?_, always_completes w, ?_⟩
  · intro sched s sched' s' hrun hserve hrun' hserve'
    obtain ⟨new, hn, hp⟩ := (run_serve_final hrun hserve).stored
    obtain ⟨new', hn', hp'⟩ := (run_serve_final hrun' hserve').stored
    refine ⟨new, new', hn, hn', hp.trans ?_⟩
    simp only at hp'
    rw [filterMap_eraseIdx _ _ _ _ hj (stored_none_of_fail w.fmtV j hfail)] at hp'
    exact hp'.symm
  · intro sched s hrun u hu
    have := unit_counters_le (Inv.run sched (Inv.start w) hrun) u hu
    exact ⟨this.1, this.2.1⟩
  · intro hall sched s hrun
    exact db_eq_disk_of_all_fail (Inv.run sched (Inv.start w) hrun)
      (fun k hk => stored_none_of_fail w.fmtV k (hall k hk))

/-- C2 at `mixedWorld`, for its second source, whose fetch fails. -/
theorem failed_source_is_skipped_witness :
    mixedWorld.jobs[1]? = some (netFailJob "https://jsonplaceholder.typicode.com/posts/2") ∧
    (fetchDataFromAPI mixedWorld.fmtV
      (netFailJob "https://jsonplaceholder.typicode.com/posts/2").get).2 ≠ none ∧
    ∃ s s', run mixedWorld (State.start mixedWorld) mixedSched = some s ∧ s.mainPc = .serve ∧
      run { mixedWorld with jobs := mixedWorld.jobs.eraseIdx 1 }
        (State.start { mixedWorld with jobs := mixedWorld.jobs.eraseIdx 1 }) mixedLessSched
          = some s' ∧ s'.mainPc = .serve ∧
      ∃ new new', s.db = mixedWorld.disk ++ new ∧ s'.db = mixedWorld.disk ++ new' ∧
        (new.map (fun r => r.Source)).Perm (new'.map (fun r => r.Source)) :=
  ⟨rfl, by decide, _, _, rfl, rfl, rfl, rfl,
    (failed_source_is_skipped mixedWorld 1 _ rfl (Or.inl (by decide))).1
      mixedSched _ mixedLessSched _ rfl rfl rfl rfl⟩

/-- C3: main starts one collectData per source and no more (N in all once the
loop is left); no unit ever calls fetchDataFromAPI or wg.Done twice, and a unit
that has exited has called each exactly once, whatever the outcome of its fetch
and insert; when main is at startServer all N units have exited, the WaitGroup
counter is zero and the channel is closed; and whenever initDB succeeds main does
get to startServer: some schedule reaches it, runs are bounded in length and
before startServer some thread can always move. -/
theorem server_after_all_units {D : Type} (w : World D) :
    (∀ sched s, run w (State.start w) sched = some s →
      s.units.map (fun u => u.job) = w.jobs.take s.units.length ∧
      s.units.length ≤ w.jobs.length ∧
      (s.mainPc = .goCloser ∨ s.mainPc = .recv ∨ s.mainPc = .serve →
        s.units.length = w.jobs.length) ∧
      (∀ u ∈ s.units, u.fetches ≤ 1 ∧ u.dones ≤ 1 ∧
        (u.pc = .exited → u.fetches = 1 ∧ u.dones = 1)) ∧
      (s.mainPc = .serve →
        (∀ u ∈ s.units, u.pc = .exited ∧ u.fetches = 1 ∧ u.dones = 1) ∧
        s.wg = 0 ∧ s.closed = true)) ∧
    (w.initErr = none →
      (∃ sched s, run w (State.start w) sched = some s ∧ s.mainPc = .serve) ∧
      ∀ sched s, run w (State.start w) sched = some s →
        sched.length ≤ (State.start w).fuel w ∧
        (s.mainPc ≠ .serve → ∃ t s', step w s t = some s')) := by
  refine ⟨?_, always_completes w⟩
  intro sched s hrun
  have h := Inv.run sched (Inv.start w) hrun
  refine ⟨h.jobs_eq, inv_length_le h, ?_, ?_, ?_⟩
  · intro hm
    have := h.main_ok
    unfold MainOK at this
    rcases hm with hm | hm | hm <;> simp only [hm] at this <;> exact this.1
  · intro u hu
    have hc := unit_counters_le h u hu
    refine ⟨hc.1, hc.2.2, ?_⟩
    intro hp
    have := h.units_ok u hu
    simp only [CUnit.OK, hp] at this
    exact ⟨this.1, this.2.1⟩
  · intro hserve
    have hf := h.final hserve
    have hm := h.main_ok
    simp only [MainOK, hserve] at hm
    exact ⟨fun u hu => ⟨hf.exited u hu, (hf.once u hu).1, (hf.once u hu).2.1⟩,
      h.drained (Or.inr hm.2.1), hf.closed⟩

theorem step_mu_acquire {D : Type} {w : World D} {s s' : State D} {t : Thread} {i : Nat}
    (hs : step w s t = some s') (h0 : s.mu = none) (h1 : s'.mu = some i) :
    t = .unit i ∧ ∃ u, s.units[i]? = some u ∧ u.pc = .lockMu := by
  cases t with
  | main =>
    simp only [step, main] at hs
    cases hp : s.mainPc <;> simp only [hp] at hs <;> repeat' split at hs
    all_goals first
      | (cases hs; done)
      | (cases hs; simp only [h0] at h1; cases h1)
  | closer =>
    simp only [step, closer] at hs
    cases hp : s.closerPc <;> simp only [hp] at hs <;> repeat' split at hs
    all_goals first
      | (cases hs; done)
      | (cases hs; simp only [h0] at h1; cases h1)
  | unit k =>
    simp only [step, collectData] at hs
    cases hu : s.units[k]? with
    | none => simp [hu] at hs
    | some u =>
      simp only [hu] at hs
      cases hp : u.pc <;> simp only [hp] at hs <;> repeat' split at hs
      all_goals first
        | (cases hs; done)
        | (cases hs; simp only [h0] at h1; cases h1; done)
        | (cases hs; cases h1; exact ⟨rfl, u, hu, hp⟩)

/-- C4: in every reachable state at most one unit is inside db.Create; a unit
that is about to call db.Create or inside it holds mu; the holder of mu is past
its fetch, which returned without error; a step that takes the free mutex is the
mu.Lock of a unit whose fetch has returned; and a unit inside db.Create goes on,
whether the insert fails or not, to the point where it still holds mu and its
next step releases it. -/
theorem one_insert_at_a_time {D : Type} (w : World D) (sched : List Thread) (s : State D)
    (hrun : run w (State.start w) sched = some s) :
    (∀ (i k : Nat) (ui uk : CUnit D), s.units[i]? = some ui → s.units[k]? = some uk →
      ui.pc = .creating → uk.pc = .creating → i = k) ∧
    (∀ (i : Nat) (u : CUnit D), s.units[i]? = some u →
      u.pc = .createCall ∨ u.pc = .creating → s.mu = some i) ∧
    (∀ i, s.mu = some i → ∃ u, s.units[i]? = some u ∧ u.pc.inCrit = true ∧ u.fetches = 1 ∧
      fetchDataFromAPI w.fmtV u.job.get = (u.data, none)) ∧
    (∀ (t : Thread) (s' : State D) (i : Nat), step w s t = some s' → s.mu = none →
      s'.mu = some i → t = .unit i ∧ ∃ u, s.units[i]? = some u ∧ u.pc = .lockMu ∧
        u.fetches = 1 ∧ fetchDataFromAPI w.fmtV u.job.get = (u.data, none)) ∧
    (∀ (i : Nat) (u : CUnit D), s.units[i]? = some u → u.pc = .creating →
      ∃ s' u', step w s (.unit i) = some s' ∧ s'.mu = some i ∧
        s'.units[i]? = some u' ∧ u'.pc = .unlockMu) ∧
    (∀ (i : Nat) (u : CUnit D), s.units[i]? = some u → u.pc = .unlockMu →
      ∃ s', step w s (.unit i) = some s' ∧ s'.mu = none) := by
  have h := Inv.run sched (Inv.start w) hrun
  refine ⟨?_, ?_, ?_, ?_, ?_, ?_⟩
  · intro i k ui uk hi hk hpi hpk
    have h1 := h.mu_ok i ui hi (by simp [hpi, UnitPc.inCrit])
    have h2 := h.mu_ok k uk hk (by simp [hpk, UnitPc.inCrit])
    rw [h1] at h2
    exact Option.some.inj h2
  · intro i u hu hp
    exact h.mu_ok i u hu (by rcases hp with hp | hp <;> simp [hp, UnitPc.inCrit])
  · intro i hi
    obtain ⟨u, hu, hc⟩ := h.mu_held i hi
    have hok := h.units_ok u (List.getElem?_mem hu)
    unfold CUnit.OK at hok
    refine ⟨u, hu, hc, ?_⟩
    cases hp : u.pc <;> simp only [hp] at hok <;> simp [hp, UnitPc.inCrit] at hc <;>
      exact ⟨hok.1, hok.2.2.2⟩
  · intro t s' i hs h0 h1
    obtain ⟨ht, u, hu, hp⟩ := step_mu_acquire hs h0 h1
    have hok := h.units_ok u (List.getElem?_mem hu)
    simp only [CUnit.OK, hp] at hok
    exact ⟨ht, u, hu, hp, hok.1, hok.2.2.2⟩
  · intro i u hu hp
    have hmu := h.mu_ok i u hu (by simp [hp, UnitPc.inCrit])
    have hlt := (List.getElem?_eq_some_iff.mp hu).1
    simp only [step, collectData, hu, hp]
    cases u.job.create <;> simp [hmu, hlt]
  · intro i u hu hp
    have hmu := h.mu_ok i u hu (by simp [hp, UnitPc.inCrit])
    simp [step, collectData, hu, hp, hmu]

/-- C4 at `mixedWorld`, in a state where unit 2 is inside db.Create, holding mu,
while unit 0 waits at mu.Lock. -/
theorem one_insert_at_a_time_witness :
    ∃ s, run mixedWorld (State.start mixedWorld) midInsertSched = some s ∧
      s.units.map (fun u => u.pc) = [.lockMu, .wgDone, .creating] ∧
      s.mu = some 2 ∧
      (∀ (i : Nat) (u : CUnit String), s.units[i]? = some u →
        u.pc = .createCall ∨ u.pc = .creating → s.mu = some i) ∧
      (∀ (i : Nat) (u : CUnit String), s.units[i]? = some u → u.pc = .creating →
        ∃ s' u', step mixedWorld s (.unit i) = some s' ∧ s'.mu = some i ∧
          s'.units[i]? = some u' ∧ u'.pc = .unlockMu) :=
  ⟨_, rfl, rfl, rfl, (one_insert_at_a_time mixedWorld midInsertSched _ rfl).2.1,
    (one_insert_at_a_time mixedWorld midInsertSched _ rfl).2.2.2.2.1⟩

theorem step_db {D : Type} {w : World D} {s s' : State D} {t : Thread}
    (hs : step w s t = some s') :
    s'.db = s.db ∨ ∃ src now, s'.db = s.db ++ [⟨w.assignID s.db, src, now⟩] := by
  cases t with
  | main =>
    simp only [step, main] at hs
    cases hp : s.mainPc <;> simp only [hp] at hs <;> repeat' split at hs
    all_goals first
      | (cases hs; done)
      | (cases hs; exact Or.inl rfl)
  | closer =>
    simp only [step, closer] at hs
    cases hp : s.closerPc <;> simp only [hp] at hs <;> repeat' split at hs
    all_goals first
      | (cases hs; done)
      | (cases hs; exact Or.inl rfl)
  | unit i =>
    simp only [step, collectData] at hs
    cases hu : s.units[i]? with
    | none => simp [hu] at hs
    | some u =>
      simp only [hu] at hs
      cases hp : u.pc <;> simp only [hp] at hs <;> repeat' split at hs
      all_goals first
        | (cases hs; done)
        | (cases hs; exact Or.inl rfl)
        | (cases hs; exact Or.inr ⟨_, _, rfl⟩)

theorem ids_nodup {D : Type} {w : World D}
    (hfresh : ∀ rows, w.assignID rows ∉ rows.map (fun r => r.ID)) :
    ∀ (sched : List Thread) {s s' : State D}, (s.db.map (fun r => r.ID)).Nodup →
      run w s sched = some s' → (s'.db.map (fun r => r.ID)).Nodup
  | [], s, s', h, hr => by
    simp [run] at hr
    exact hr ▸ h
  | t :: ts, s, s', h, hr => by
    simp only [run] at hr
    cases hs : step w s t with
    | none => simp [hs] at hr
    | some s1 =>
      simp only [hs, Option.some_bind] at hr
      refine ids_nodup hfresh ts ?_ hr
      rcases step_db hs with h1 | ⟨src, now, h1⟩
      · rw [h1]; exact h
      · rw [h1, List.map_append, List.nodup_append_comm]
        simp only [List.map_cons, List.map_nil, List.singleton_append, List.nodup_cons]
        exact ⟨hfresh s.db, h⟩

theorem length_filterMap_all {α β : Type} (g : α → Option β) :
    ∀ (l : List α), (∀ a ∈ l, (g a).isSome = true) → (l.filterMap g).length = l.length
  | [], _ => rfl
  | a :: t, h => by
    have ha := h a (List.mem_cons_self _ _)
    have ih := length_filterMap_all g t (fun b hb => h b (List.mem_cons_of_mem _ hb))
    cases hg : g a with
    | none => simp [hg] at ha
    | some b => simp [List.filterMap_cons, hg, ih]

theorem stored_some_of_ok {D : Type} (fmtV : D → String) (j : Job D)
    (hf : (fetchDataFromAPI fmtV j.get).2 = none) (hc : ∃ now, j.create = .ok now) :
    (j.stored fmtV).isSome = true := by
  obtain ⟨now, hc⟩ := hc
  unfold Job.stored Job.fetched
  rw [hc]
  simp only
  split
  · rfl
  · rename_i h
    rw [h] at hf
    cases hf

/-- C8, amended: for every run that starts on an empty Store, with the 3
configured sources, all fetches and inserts succeeding (the Store giving each
inserted row an id not yet in use), the list served by GET /data once main is at
startServer has exactly 3 objects, each with a non-empty Source text, and
pairwise distinct ids; and such a run exists. -/
theorem three_sources_three_rows {D : Type} (w : World D) (fmtTime : Nat → String)
    (hsrc : w.jobs.map (fun j => j.source) = dataSources)
    (hfetch : ∀ j ∈ w.jobs, (fetchDataFromAPI w.fmtV j.get).2 = none)
    (hcreate : ∀ j ∈ w.jobs, ∃ now, j.create = .ok now)
    (hinit : w.initErr = none) (hempty : w.disk = [])
    (hfresh : ∀ rows, w.assignID rows ∉ rows.map (fun r => r.ID)) :
    (∃ sched s, run w (State.start w) sched = some s ∧ s.mainPc = .serve) ∧
    ∀ sched s, run w (State.start w) sched = some s → s.mainPc = .serve →
      (served fmtTime s).status = 200 ∧
      (served fmtTime s).body.items.length = 3 ∧
      (served fmtTime s).body.items.map Json.toRow =
        s.db.map (fun r => some (r.ID, r.Source, fmtTime r.Timestamp)) ∧
      (∀ r ∈ s.db, r.Source ≠ "") ∧
      (s.db.map (fun r => r.ID)).Nodup := by
  refine ⟨reaches_serve w hinit, ?_⟩
  intro sched s hrun hserve
  obtain ⟨new, hn, hp⟩ := (run_serve_final hrun hserve).stored
  rw [hempty, List.nil_append] at hn
  subst hn
  have hlen : w.jobs.length = 3 := by
    have := congrArg List.length hsrc
    simpa [dataSources] using this
  have hall : ∀ j ∈ w.jobs, (j.stored w.fmtV).isSome = true :=
    fun j hj => stored_some_of_ok w.fmtV j (hfetch j hj) (hcreate j hj)
  have hdb : s.db.length = 3 := by
    have := hp.length_eq
    rw [length_filterMap_all _ _ hall, hlen] at this
    simpa using this
  refine ⟨rfl, by simp [served, getData, Json.items, hdb], ?_, ?_, ?_⟩
  · simp only [served, getData, Json.items, List.map_map]
    apply List.map_congr_left
    intro r _
    exact marshal_toRow fmtTime r
  · intro r hr
    have h1 : r.Source ∈ s.db.map (fun r => r.Source) := List.mem_map_of_mem _ hr
    have h2 := hp.subset h1
    obtain ⟨j, _, hj⟩ := List.mem_filterMap.mp h2
    exact stored_ne_empty w.fmtV j _ hj
  · refine ids_nodup hfresh sched ?_ hrun
    simp [State.start, hempty]

/-- C8 at the three compiled-in sources over an empty Store. -/
theorem three_sources_three_rows_witness :
    (allOkWorld []).jobs.map (fun j => j.source) = dataSources ∧
    (allOkWorld []).initErr = none ∧ (allOkWorld []).disk = [] ∧
    ∃ s, run (allOkWorld []) (State.start (allOkWorld [])) allOkSched = some s ∧
      s.mainPc = .serve ∧
      (served toString s).status = 200 ∧
      (served toString s).body.items.length = 3 ∧
      (served toString s).body.items.map Json.toRow =
        s.db.map (fun r => some (r.ID, r.Source, toString r.Timestamp)) ∧
      (∀ r ∈ s.db, r.Source ≠ "") ∧
      (s.db.map (fun r => r.ID)).Nodup :=
  ⟨rfl, rfl, rfl, _, rfl, rfl,
    (three_sources_three_rows (allOkWorld []) toString rfl (by decide)
      (by
        intro j hj
        simp only [allOkWorld, demoWorld, dataSources, okJob, List.map_cons, List.map_nil,
          List.mem_cons, List.mem_singleton, List.not_mem_nil, or_false] at hj
        rcases hj with rfl | rfl | rfl <;> exact ⟨7, rfl⟩)
      rfl rfl
      (by
        intro rows hmem
        simp only [allOkWorld, demoWorld] at hmem
        have hle : ∀ (l : List Nat) (x : Nat), x ∈ l → x ≤ l.foldr max 0 := by
          intro l
          induction l with
          | nil => intro x hx; cases hx
          | cons a t ih =>
            intro x hx
            simp only [List.foldr_cons]
            rcases List.mem_cons.mp hx with rfl | hx
            · exact le_max_left _ _
            · exact le_trans (ih x hx) (le_max_right _ _)
        have := hle _ _ hmem
        omega)).2 allOkSched _ rfl rfl⟩

/-- C8, as stated, fails: over a Store that already holds one row (left by an
earlier run), the 3 sources all succeed and GET /data serves 4 objects. -/
theorem three_sources_three_rows_counterexample :
    ∃ s, run (allOkWorld [⟨1, "Data from API: map[id:0]", 5⟩])
        (State.start (allOkWorld [⟨1, "Data from API: map[id:0]", 5⟩])) allOkSched = some s ∧
      s.mainPc = .serve ∧
      (allOkWorld [⟨1, "Data from API: map[id:0]", 5⟩]).jobs.map (fun j => j.source)
        = dataSources ∧
      (served toString s).status = 200 ∧
      (served toString s).body.items.length = 4 := by
  decide

/-- C9: initDB returns an error exactly when gorm.Open fails or AutoMigrate
fails, and then returns no handle (and a handle when it returns no error); and
when initDB returns an error, in every state the program can reach no
collectData has been started, the Store holds what it held, main is not at
startServer, and the first step of main is the fatal exit, after which no thread
moves. -/
theorem initDB_error_is_fatal {H D : Type} (opened : Except String H)
    (autoMigrate : H → Option String) (w : World D) :
    (((initDB opened autoMigrate).2 ≠ none ↔
        (∃ err, opened = .error err) ∨ ∃ db err, opened = .ok db ∧ autoMigrate db = some err) ∧
      ((initDB opened autoMigrate).2 ≠ none → (initDB opened autoMigrate).1 = none) ∧
      ((initDB opened autoMigrate).2 = none → (initDB opened autoMigrate).1 ≠ none)) ∧
    ((initDB w.gormOpen (fun _ => w.autoMigrate)).2 ≠ none →
      (∀ sched s, run w (State.start w) sched = some s →
        s.units = [] ∧ s.db = w.disk ∧ s.stdout = [] ∧
          (s.mainPc = .init ∨ s.mainPc = .fatal)) ∧
      ∃ s, run w (State.start w) [.main] = some s ∧ s.mainPc = .fatal ∧
        ∀ t, step w s t = none) := by
  constructor
  · unfold initDB
    cases opened with
    | error e => simp
    | ok db =>
      cases hm : autoMigrate db with
      | none => simp [hm]
      | some e => simp [hm]
  · intro herr
    have herr' : w.initErr ≠ none := herr
    constructor
    · intro sched s hrun
      have h := Inv.run sched (Inv.start w) hrun
      have hm := h.main_ok
      unfold MainOK at hm
      have hpc : s.mainPc = .init ∨ s.mainPc = .fatal := by
        cases hp : s.mainPc <;> simp only [hp] at hm <;> simp_all
      have hlen : s.units.length = 0 := by
        rcases hpc with hp | hp <;> simp only [hp] at hm <;> exact hm.1
      have hnil : s.units = [] := List.length_eq_zero.mp hlen
      refine ⟨hnil, ?_, ?_, hpc⟩
      · obtain ⟨new, hn, hp⟩ := h.db_ok
        rw [hnil] at hp
        have : new = [] := by simpa using hp.eq_nil
        simp [hn, this]
      · have := h.chan
        rw [hnil] at this
        have := this.eq_nil
        simp only [List.filterMap_nil, List.append_eq_nil] at this
        exact this.1
    · cases he : (initDB w.gormOpen (fun _ => w.autoMigrate)) with
      | mk db err =>
        cases err with
        | none => rw [he] at herr; exact absurd rfl herr
        | some e =>
          refine ⟨_, by simp [run, step, main, State.start, he]; rfl, rfl, ?_⟩
          intro t
          cases t <;> simp [step, main, closer, collectData]

/-- C9 at `noStoreWorld`, where gorm.Open fails: main's only step is the fatal
exit, with no unit started and the Store untouched. -/
theorem initDB_error_is_fatal_witness :
    (initDB noStoreWorld.gormOpen (fun _ => noStoreWorld.autoMigrate)).2
      = some "unable to open database file" ∧
    ∃ s, run noStoreWorld (State.start noStoreWorld) [.main] = some s ∧
      s.mainPc = .fatal ∧ s.units = [] ∧ s.db = noStoreWorld.disk ∧
      ∀ t, step noStoreWorld s t = none := by
  refine ⟨rfl, ?_⟩
  have h := (initDB_error_is_fatal noStoreWorld.gormOpen (fun _ => noStoreWorld.autoMigrate)
    noStoreWorld).2 (by decide)
  obtain ⟨s, h1, h2, h3⟩ := h.2
  have h4 := h.1 [.main] s h1
  exact ⟨s, h1, h2, h4.1, h4.2.1, h3⟩

/-- C10: the payloads that have gone through the results channel (printed or
still buffered) are those of the units that have passed their send, one each;
they are never more than len(dataSources); a unit at its send can always
proceed, appending its payload; and once main is at startServer the printed
payloads are, one each, those of the sources whose fetch succeeded, whatever
became of their insert, the channel being empty. -/
theorem results_one_per_fetch {D : Type} (w : World D) (sched : List Thread) (s : State D)
    (hrun : run w (State.start w) sched = some s) :
    (s.stdout ++ s.results).Perm (s.units.filterMap (CUnit.sentOpt w.fmtV)) ∧
    s.stdout.length + s.results.length ≤ w.jobs.length ∧
    (∀ i u, s.units[i]? = some u → u.pc = .send →
      s.results.length < w.jobs.length ∧
      ∃ s', step w s (.unit i) = some s' ∧ s'.results = s.results ++ [u.data]) ∧
    (s.mainPc = .serve →
      s.results = [] ∧ s.stdout.Perm (w.jobs.filterMap (Job.fetched w.fmtV))) ∧
    (w.initErr = none →
      ∃ more s', run w s more = some s' ∧ s'.mainPc = .serve) := by
  have h := Inv.run sched (Inv.start w) hrun
  refine ⟨h.chan, ?_, ?_, ?_, ?_⟩
  · have h1 := h.chan.length_eq
    have h2 := List.length_filterMap_le (CUnit.sentOpt w.fmtV) s.units
    have h3 := inv_length_le h
    simp only [List.length_append] at h1
    omega
  · intro i u hu hp
    have hroom := inv_room h hu (by simp [hp, UnitPc.pastSend])
    have hlt : s.results.length < w.jobs.length := by omega
    have hcl : s.closed = false := by
      cases hc : s.closed with
      | false => rfl
      | true =>
        have h0 := h.drained (Or.inr (h.closed_iff.mp hc))
        have hw := h.wg_eq
        have hpos : 0 < s.units.countP (fun u => u.pc.live) :=
          List.countP_pos_iff.mpr ⟨u, List.getElem?_mem hu, by simp [hp, UnitPc.live]⟩
        omega
    refine ⟨hlt, ?_⟩
    simp [step, collectData, hu, hp, hcl, hlt]
  · intro hserve
    have hf := h.final hserve
    exact ⟨hf.drained, hf.printed⟩
  · intro hinit
    obtain ⟨more, s', hr, hfin⟩ := completes _ s h (le_refl _)
    refine ⟨more, s', hr, ?_⟩
    rcases hfin with hfin | hfin
    · exact hfin
    · have := (Inv.run more h hr).main_ok
      simp only [MainOK, hfin] at this
      obtain ⟨_, _, err, he, _⟩ := this
      rw [hinit] at he
      cases he

/-- C10 at `mixedWorld`: two fetches succeed, one of them with a failed insert,
and two payloads are printed. -/
theorem results_one_per_fetch_witness :
    ∃ s, run mixedWorld (State.start mixedWorld) mixedSched = some s ∧ s.mainPc = .serve ∧
      s.results = [] ∧
      s.stdout.Perm (mixedWorld.jobs.filterMap (Job.fetched mixedWorld.fmtV)) ∧
      s.stdout.length = 2 ∧ s.db.length = 1 :=
  ⟨_, rfl, rfl,
    ((results_one_per_fetch mixedWorld mixedSched _ rfl).2.2.2.1 rfl).1,
    ((results_one_per_fetch mixedWorld mixedSched _ rfl).2.2.2.1 rfl).2, rfl, rfl⟩

end Goroutines
